import Mathlib

/-!
Shallow embedding of `SudokuGoku.py` (class `SudokuSolver`).

The working grid is a pandas `DataFrame` built from a row-major 9x9 numpy
matrix.  We model the stored matrix as `Grid : Fin 9 → Fin 9 → ℕ`
(`g r c` = entry of the numpy array at row `r`, column `c`).

A crucial point of fidelity: pandas `df[row][col]` selects COLUMN `row`
first and then index `col` inside it, i.e. `df[row][col] = arr[col][row]`.
The whole solver accesses the grid through that chained-index convention,
so we introduce `dfGet`/`dfSet` with exactly those semantics and use them
wherever the source writes `self._sudoku[row][col]`.
-/

namespace SudokuGoku

abbrev Grid := Fin 9 → Fin 9 → ℕ

/-- pandas chained indexing: `self._sudoku[row][col]` reads the stored
matrix at row `col`, column `row`. -/
def dfGet (g : Grid) (row col : Fin 9) : ℕ := g col row

/-- pandas chained assignment: `self._sudoku[row][col] = v` writes the
stored matrix at row `col`, column `row`. -/
def dfSet (g : Grid) (row col : Fin 9) (v : ℕ) : Grid :=
  fun p q => if p = col ∧ q = row then v else g p q

/-- Kernel-reducible equality test on grids (pointwise over `Fin 9`),
used so that concrete runs of the solver can be checked by `decide`. -/
instance : DecidableEq Grid := fun g h =>
  decidable_of_iff
    (((List.finRange 9).all fun p =>
        (List.finRange 9).all fun q => g p q == h p q) = true)
    (by
      simp only [List.all_eq_true, beq_iff_eq]
      exact ⟨fun H => funext fun p => funext fun q =>
               H p (List.mem_finRange p) q (List.mem_finRange q),
             fun H p _ q _ => congrFun (congrFun H p) q⟩)

/-- The `_squares` box-index matrix: entry at stored position `(r, c)` is
`3 * (r / 3) + (c / 3) + 1`, a box identifier in 1..9. -/
def sqId (r c : Fin 9) : ℕ := 3 * ((r : ℕ) / 3) + ((c : ℕ) / 3) + 1

/-- `list(range(1, 10))`, the candidate base and the value sequence of the
exhaustive strategy (`for i in range(1, 10)`). -/
def vals19 : List ℕ := [1, 2, 3, 4, 5, 6, 7, 8, 9]

/-- `self._sudoku[i]`: the i-th pandas column, i.e. stored column `i`. -/
def colList (g : Grid) (i : Fin 9) : List ℕ :=
  (List.finRange 9).map (fun j => g j i)

/-- `self._sudoku.T[i]`: the i-th pandas row, i.e. stored row `i`. -/
def rowList (g : Grid) (i : Fin 9) : List ℕ :=
  (List.finRange 9).map (fun j => g i j)

/-- All 81 stored positions, enumerated first-coordinate-major. -/
def cells : List (Fin 9 × Fin 9) :=
  (List.finRange 9).flatMap (fun r => (List.finRange 9).map (fun c => (r, c)))

/-- `np.where(self._squares == k, self._sudoku, 0)` flattened: each stored
cell keeps its value inside box `k` and is zeroed elsewhere. -/
def squareList (g : Grid) (k : ℕ) : List ℕ :=
  cells.map (fun rc => if sqId rc.1 rc.2 = k then g rc.1 rc.2 else 0)

/-- `__is_correct`: counts occurrences of each value and fails iff some
non-zero value occurs more than once. -/
def isCorrect (l : List ℕ) : Bool :=
  l.all (fun v => v == 0 || decide (l.count v ≤ 1))

/-- `__check_sudoku`: for every `i` in 0..8, the i-th pandas column, the
i-th pandas row and box `i + 1` must each pass `__is_correct`. -/
def checkSudoku (g : Grid) : Bool :=
  (List.finRange 9).all (fun i =>
    isCorrect (colList g i) && isCorrect (rowList g i) &&
      isCorrect (squareList g ((i : ℕ) + 1)))

/-- `self._sudoku.to_numpy().sum()`: the sum of all 81 cells, taken row by
row over the stored matrix. -/
def sumGrid (g : Grid) : ℕ :=
  ((List.finRange 9).map (fun r => (rowList g r).sum)).sum

/-- `__is_complete`: `self._sudoku.to_numpy().sum() == 45 * 9`.  Note the
source checks ONLY the sum, there is no per-cell non-zero test. -/
def isComplete (g : Grid) : Bool := sumGrid g == 405

/-- First cell of `l` (in list order) whose predicate holds; models the
early-returning double loop of `__next_empty`. -/
def findCell (p : Fin 9 → Fin 9 → Bool) : List (Fin 9 × Fin 9) → Option (Fin 9 × Fin 9)
  | [] => none
  | rc :: rest => if p rc.1 rc.2 then some rc else findCell p rest

/-- `__next_empty`: scan `row` 0..8 (outer), `col` 0..8 (inner) and return
the first `(row, col)` with `self._sudoku[row][col] == 0`.  The Python
sentinel `(-1, -1)` (no empty cell) is modelled as `none`. -/
def nextEmpty (g : Grid) : Option (Fin 9 × Fin 9) :=
  findCell (fun r c => dfGet g r c == 0) cells

/-- Result of a recursive fill call.
* `ok b g` : the Python function returned boolean `b` with working grid `g`;
* `keyError` : models the `KeyError` the Python code raises when
  `__next_empty` returned the `(-1, -1)` sentinel and the subsequent
  chained assignment `self._sudoku[-1][-1] = i` fails;
* `fuelOut` : artifact of the fuel-indexed embedding (recursion deeper
  than the supplied fuel); proved unreachable for fuel 82. -/
inductive FillResult where
  | ok : Bool → Grid → FillResult
  | keyError : FillResult
  | fuelOut : FillResult

/-- Kernel-reducible equality test on fill results (avoids the equality
transport of the derived instance, which blocks `decide` on grids that are
pointwise but not definitionally equal). -/
instance : DecidableEq FillResult := fun a b =>
  match a, b with
  | .ok b1 g1, .ok b2 g2 =>
    decidable_of_iff (b1 = b2 ∧ g1 = g2)
      ⟨fun h => by rw [h.1, h.2], fun h => by cases h; exact ⟨rfl, rfl⟩⟩
  | .keyError, .keyError => isTrue rfl
  | .fuelOut, .fuelOut => isTrue rfl
  | .ok _ _, .keyError => isFalse nofun
  | .ok _ _, .fuelOut => isFalse nofun
  | .keyError, .ok _ _ => isFalse nofun
  | .keyError, .fuelOut => isFalse nofun
  | .fuelOut, .ok _ _ => isFalse nofun
  | .fuelOut, .keyError => isFalse nofun

/-- The shared candidate loop of `__fill_sudoku_v1` / `__fill_sudoku_v2`
(they are textually identical up to debug prints): for each value `i` of
the candidate list, assign it into the gap, recurse when `__check_sudoku`
passes, propagate success, and after the loop reset the gap to 0 and
report failure. -/
def tryFill (fill : Grid → FillResult) (r c : Fin 9) :
    List ℕ → Grid → FillResult
  | [], g => .ok false (dfSet g r c 0)
  | i :: rest, g =>
    let g1 := dfSet g r c i
    if checkSudoku g1 then
      match fill g1 with
      | .ok true g2 => .ok true g2
      | .ok false g2 => tryFill fill r c rest g2
      | e => e
    else
      tryFill fill r c rest g1

/-- `__fill_sudoku_v1` (exhaustive strategy), fuel-indexed: if complete
return `True`; otherwise fill the next gap trying every value 1..9. -/
def fillV1 : ℕ → Grid → FillResult
  | 0, _ => .fuelOut
  | fuel + 1, g =>
    if isComplete g then .ok true g
    else
      match nextEmpty g with
      | none => .keyError
      | some (r, c) => tryFill (fillV1 fuel) r c vals19 g

/-- The removal loops of `__get_options`:
`for value in xs: if value in options_base: options_base.remove(value)`.
`list.remove` deletes the first occurrence, and the membership guard makes
the guarded removal identical to plain `List.erase`. -/
def eraseVals (base : List ℕ) (xs : List ℕ) : List ℕ :=
  xs.foldl (fun b v => b.erase v) base

/-- `__get_options`: per cell `(row, col)` (pandas labels), a filled cell
keeps `[its value]`; an empty cell starts from 1..9 and removes the values
of pandas column `col` (`self._sudoku.T[col]`, stored row `col`), pandas
row `row` (`self._sudoku[row]`, stored column `row`) and box
`3 * (col / 3) + (row / 3) + 1`.  The source erases the entries of
`np.unique` of the masked box array; erasing every entry of the flattened
masked array itself removes exactly the same values, so we fold over the
flattened `squareList` directly. -/
def getOptions (g : Grid) : Fin 9 → Fin 9 → List ℕ := fun row col =>
  if dfGet g row col ≠ 0 then [dfGet g row col]
  else
    let base1 := eraseVals vals19 (rowList g col)
    let base2 := eraseVals base1 (colList g row)
    eraseVals base2 (squareList g (3 * ((col : ℕ) / 3) + ((row : ℕ) / 3) + 1))

/-- `__fill_sudoku_v2` (pruned strategy), fuel-indexed: same control
structure as v1, but the candidate list for the gap `(row, col)` is
`options[row][col]`. -/
def fillV2 (opts : Fin 9 → Fin 9 → List ℕ) : ℕ → Grid → FillResult
  | 0, _ => .fuelOut
  | fuel + 1, g =>
    if isComplete g then .ok true g
    else
      match nextEmpty g with
      | none => .keyError
      | some (r, c) => tryFill (fillV2 opts fuel) r c (opts r c) g

/-- The solver object after `__init__`: the working grid `_sudoku` and the
defensive copy `_original`. -/
structure Solver where
  sudoku : Grid
  original : Grid

/-- Kernel-reducible equality test on solver states. -/
instance : DecidableEq Solver := fun a b =>
  decidable_of_iff (a.sudoku = b.sudoku ∧ a.original = b.original)
    ⟨fun h => by cases a; cases b; simp_all, fun h => by cases h; exact ⟨rfl, rfl⟩⟩

/-- `__init__` (matrix input already recognized): store the grid, copy it
into `_original`, then raise `ValueError("Initial sudoku is invalid")`
(the spec's `InvalidPuzzle`) unless `__check_sudoku` passes. -/
def initSolver (m : Grid) : Except String Solver :=
  if checkSudoku m then .ok ⟨m, m⟩
  else .error "Initial sudoku is invalid"

/-- The I/O actions `solve_sudoku` performs itself, in order:
* `printSolving`: `print(f"\nSolving sudoku using method '{method}'...\n")`;
* `promptShowResult`: the interactive
  `input(f"Sudoku solved in {...} seconds :). Do you want to see the result? (Y/N): ")`;
* `drawGrid`: `self.draw_sudoku()`;
* `printUnsolved`: `print("Sudoku couldn't be solved :(\n")`. -/
inductive FacadeEvent where
  | printSolving
  | promptShowResult
  | drawGrid
  | printUnsolved
  deriving DecidableEq

/-- `solve_sudoku(method)`: raises `ValueError` unless the method is
`brute` or `options`; otherwise runs the chosen strategy on the working
grid, and reports the outcome itself through prints and an interactive
prompt.  The Python function has no `return` statement, so it returns
`None` to its caller: the model returns only the event trace and the
mutated solver state, with no success/failure or timing value.
`ansIsY` models the user reply test `input(...).upper() == "Y"`; the
wall-clock timing only feeds the prompt text and has no other effect, so
it is not modelled.  The searches run with fuel 82 (never exhausted, by
the termination theorems); a `KeyError` escaping the search surfaces as
an exception. -/
def solveSudoku (method : String) (ansIsY : Bool) (s : Solver) :
    Except String (List FacadeEvent × Solver) :=
  if method ≠ "brute" ∧ method ≠ "options" then
    .error "Method must be either brute or options"
  else
    let res := if method = "brute" then fillV1 82 s.sudoku
               else fillV2 (getOptions s.sudoku) 82 s.sudoku
    match res with
    | .ok true g2 =>
      .ok ([.printSolving, .promptShowResult] ++
        (if ansIsY then [.drawGrid] else []), ⟨g2, s.original⟩)
    | .ok false g2 => .ok ([.printSolving, .printUnsolved], ⟨g2, s.original⟩)
    | _ => .error "KeyError"

/-- The canonical complete Sudoku grid with stored row `r` equal to 1..9
rotated left by `3 * (r % 3) + r / 3`; row 0 is `[1, 2, ..., 9]`. -/
def solGrid : Grid := fun r c =>
  (3 * ((r : ℕ) % 3) + (r : ℕ) / 3 + (c : ℕ)) % 9 + 1

/-- `solGrid` with its top-left cell emptied: a valid puzzle with exactly
one empty cell, whose unique solution is `solGrid`. -/
def oneGap : Grid := fun p q => if p = 0 ∧ q = 0 then 0 else solGrid p q

/-- A valid but unsolvable grid: stored row 0 is `[0, 2, 3, ..., 9]` and
stored cell `(1, 0)` holds 1, so no digit 1..9 fits the gap at `(0, 0)`. -/
def stuckGrid : Grid := fun p q =>
  if p = 0 then (if q = 0 then 0 else (q : ℕ) + 1)
  else if p = 1 ∧ q = 0 then 1 else 0

/-- Stored rows 0..4 all nines, rows 5..8 all zeros: the 81 cells sum to
`45 * 9 = 405` although 36 cells are still empty. -/
def sum405Grid : Grid := fun p _ => if (p : ℕ) < 5 then 9 else 0

/-- Every cell holds 5 except the two empty cells at stored positions
`(0, 1)` and `(1, 0)`. -/
def twoGapGrid : Grid := fun p q =>
  if (p = 0 ∧ q = 1) ∨ (p = 1 ∧ q = 0) then 0 else 5

/-- Two fives in stored row 0, all other cells empty. -/
def dupGrid : Grid := fun p q => if p = 0 ∧ (q : ℕ) < 2 then 5 else 0

/-- Kernel-reducible equality test on facade outcomes. -/
instance : DecidableEq (Except String (List FacadeEvent × Solver)) := fun a b =>
  match a, b with
  | .error e1, .error e2 =>
    decidable_of_iff (e1 = e2) ⟨fun h => by rw [h], fun h => by cases h; rfl⟩
  | .ok (t1, s1), .ok (t2, s2) =>
    decidable_of_iff (t1 = t2 ∧ s1 = s2)
      ⟨fun h => by rw [h.1, h.2], fun h => by cases h; exact ⟨rfl, rfl⟩⟩
  | .error _, .ok _ => isFalse nofun
  | .ok _, .error _ => isFalse nofun

/-- Number of empty (zero) stored cells of the grid. -/
def countZeros (g : Grid) : ℕ :=
  ((Finset.univ : Finset (Fin 9 × Fin 9)).filter (fun rc => g rc.1 rc.2 = 0)).card

/-- `g2` preserves every filled cell of `g1` (the relation between a grid
and any grid the search derives from it). -/
def Preserves (g2 g1 : Grid) : Prop :=
  ∀ p q : Fin 9, g1 p q ≠ 0 → g2 p q = g1 p q

/-- All entries of the grid lie in 0..9. -/
def Bounded (g : Grid) : Prop := ∀ p q : Fin 9, g p q ≤ 9

/-- `s` is a complete solution of the starting grid `g`: it satisfies the
solver's own validity and completeness tests, has entries in 0..9 and
agrees with `g` on every filled cell. -/
def IsSolution (s g : Grid) : Prop :=
  checkSudoku s = true ∧ isComplete s = true ∧ Bounded s ∧ Preserves s g

/-- Kernel-reducible decidability of the entry bound on concrete grids. -/
instance (g : Grid) : Decidable (Bounded g) :=
  decidable_of_iff
    (((List.finRange 9).all fun p =>
        (List.finRange 9).all fun q => decide (g p q ≤ 9)) = true)
    (by
      simp only [List.all_eq_true, decide_eq_true_eq]
      exact ⟨fun H p q => H p (List.mem_finRange p) q (List.mem_finRange q),
             fun H p _ q _ => H p q⟩)

/-- Kernel-reducible decidability of cell preservation on concrete
grids. -/
instance (a b : Grid) : Decidable (Preserves a b) :=
  decidable_of_iff
    (((List.finRange 9).all fun p =>
        (List.finRange 9).all fun q =>
          (b p q == 0) || (a p q == b p q)) = true)
    (by
      simp only [List.all_eq_true, Bool.or_eq_true, beq_iff_eq]
      constructor
      · intro H p q hpq
        rcases H p (List.mem_finRange p) q (List.mem_finRange q) with h | h
        · exact absurd h hpq
        · exact h
      · intro H p _ q _
        by_cases h : b p q = 0
        · exact Or.inl h
        · exact Or.inr (H p q h))

instance (s g : Grid) : Decidable (IsSolution s g) :=
  inferInstanceAs (Decidable (_ ∧ _ ∧ _ ∧ _))

/-- Row-major first empty cell of the stored matrix.  Modelled from the
spec: "locate the next empty cell in row-major scan order (first
encountered)", read against the input matrix itself (stored row `p` outer,
stored column `q` inner). -/
def rowMajorFirstZero (g : Grid) : Option (Fin 9 × Fin 9) :=
  findCell (fun p q => g p q == 0) cells

/-- Spec-side notion (claim C8): the matrix contains a duplicate non-zero
value in some row, some column, or some 3x3 box (box membership via the
Box Index Map `sqId`). -/
def hasDuplicate (g : Grid) : Prop :=
  (∃ r i j : Fin 9, i ≠ j ∧ g r i = g r j ∧ g r i ≠ 0) ∨
  (∃ c i j : Fin 9, i ≠ j ∧ g i c = g j c ∧ g i c ≠ 0) ∨
  (∃ p q u w : Fin 9, (p, q) ≠ (u, w) ∧ sqId p q = sqId u w ∧
    g p q = g u w ∧ g p q ≠ 0)

/-- `g2` agrees with `g1` everywhere except possibly at the stored cell
targeted by pandas label `(r, c)` (i.e. stored position `(c, r)`). -/
def AgreeOff (r c : Fin 9) (g2 g1 : Grid) : Prop :=
  ∀ p q : Fin 9, ¬(p = c ∧ q = r) → g2 p q = g1 p q

/-- Strict order in which `__next_empty` visits pandas labels:
outer loop `row`, inner loop `col`. -/
def labelLt (x y : Fin 9 × Fin 9) : Prop :=
  x.1 < y.1 ∨ (x.1 = y.1 ∧ x.2 < y.2)

instance : DecidableRel labelLt := fun x y =>
  inferInstanceAs (Decidable (x.1 < y.1 ∨ (x.1 = y.1 ∧ x.2 < y.2)))

section BasicLemmas

theorem dfGet_dfSet (g : Grid) (r c : Fin 9) (v : ℕ) :
    dfGet (dfSet g r c v) r c = v := by
  simp [dfGet, dfSet]

theorem dfSet_apply_ne (g : Grid) (r c : Fin 9) (v : ℕ) (p q : Fin 9)
    (h : ¬(p = c ∧ q = r)) : dfSet g r c v p q = g p q := by
  simp [dfSet, h]

theorem dfSet_dfSet (g : Grid) (r c : Fin 9) (a b : ℕ) :
    dfSet (dfSet g r c a) r c b = dfSet g r c b := by
  funext p q
  by_cases h : p = c ∧ q = r <;> simp [dfSet, h]

theorem dfSet_zero_of_get_zero (g : Grid) (r c : Fin 9)
    (h : dfGet g r c = 0) : dfSet g r c 0 = g := by
  funext p q
  by_cases hpq : p = c ∧ q = r
  · obtain ⟨hp, hq⟩ := hpq
    subst hp; subst hq
    simpa [dfSet] using h.symm
  · simp [dfSet, hpq]

theorem agreeOff_refl (r c : Fin 9) (g : Grid) : AgreeOff r c g g :=
  fun _ _ _ => rfl

theorem agreeOff_dfSet (r c : Fin 9) (g2 g1 : Grid) (v : ℕ)
    (h : AgreeOff r c g2 g1) : AgreeOff r c (dfSet g2 r c v) g1 := by
  intro p q hpq
  rw [dfSet_apply_ne _ _ _ _ _ _ hpq]
  exact h p q hpq

theorem dfSet_eq_of_agreeOff (r c : Fin 9) (g2 g1 : Grid) (v : ℕ)
    (h : AgreeOff r c g2 g1) : dfSet g2 r c v = dfSet g1 r c v := by
  funext p q
  by_cases hpq : p = c ∧ q = r
  · obtain ⟨hp, hq⟩ := hpq; subst hp; subst hq; simp [dfSet]
  · rw [dfSet_apply_ne _ _ _ _ _ _ hpq, dfSet_apply_ne _ _ _ _ _ _ hpq]
    exact h p q hpq

theorem mem_cells (rc : Fin 9 × Fin 9) : rc ∈ cells := by
  obtain ⟨r, c⟩ := rc
  simp [cells, List.mem_flatMap]

theorem cells_nodup : cells.Nodup := by decide

theorem cells_pairwise_labelLt : cells.Pairwise labelLt := by decide

end BasicLemmas

section ScanLemmas

theorem findCell_eq_none_iff (p : Fin 9 → Fin 9 → Bool) (l : List (Fin 9 × Fin 9)) :
    findCell p l = none ↔ ∀ rc ∈ l, p rc.1 rc.2 = false := by
  induction l with
  | nil => simp [findCell]
  | cons x xs ih =>
    by_cases hx : p x.1 x.2 = true
    · simp [findCell, hx]
    · simp only [Bool.not_eq_true] at hx
      simp [findCell, hx, ih]

theorem findCell_eq_some (p : Fin 9 → Fin 9 → Bool) (l : List (Fin 9 × Fin 9))
    (rc : Fin 9 × Fin 9) (h : findCell p l = some rc) :
    p rc.1 rc.2 = true ∧
      ∃ l1 l2, l = l1 ++ rc :: l2 ∧ ∀ x ∈ l1, p x.1 x.2 = false := by
  induction l with
  | nil => simp [findCell] at h
  | cons x xs ih =>
    by_cases hx : p x.1 x.2 = true
    · rw [findCell, if_pos hx] at h
      obtain rfl : x = rc := by injection h
      exact ⟨hx, [], xs, rfl, by simp⟩
    · simp only [Bool.not_eq_true] at hx
      rw [findCell, hx] at h
      simp only [Bool.false_eq_true, if_false] at h
      obtain ⟨hp, l1, l2, heq, hall⟩ := ih h
      refine ⟨hp, x :: l1, l2, by simp [heq], ?_⟩
      intro y hy
      rcases List.mem_cons.mp hy with rfl | hy
      · exact hx
      · exact hall y hy

theorem nextEmpty_some_get_zero (g : Grid) (r c : Fin 9)
    (h : nextEmpty g = some (r, c)) : dfGet g r c = 0 := by
  have := (findCell_eq_some _ _ _ h).1
  simpa using this

theorem nextEmpty_eq_none_iff (g : Grid) :
    nextEmpty g = none ↔ ∀ p q : Fin 9, g p q ≠ 0 := by
  rw [nextEmpty, findCell_eq_none_iff]
  constructor
  · intro h p q
    have := h (q, p) (mem_cells _)
    simpa [dfGet] using this
  · intro h rc _
    simpa [dfGet] using h rc.2 rc.1

theorem nextEmpty_isSome_of_zero (g : Grid) (p q : Fin 9) (h : g p q = 0) :
    ∃ r c, nextEmpty g = some (r, c) := by
  cases hn : nextEmpty g with
  | none => exact absurd h ((nextEmpty_eq_none_iff g).mp hn p q)
  | some rc => exact ⟨rc.1, rc.2, by simp [hn]⟩

end ScanLemmas

section CountZerosLemmas

theorem countZeros_le (g : Grid) : countZeros g ≤ 81 := by
  calc countZeros g ≤ (Finset.univ : Finset (Fin 9 × Fin 9)).card :=
        Finset.card_filter_le _ _
    _ = 81 := by simp

theorem countZeros_dfSet_lt (g : Grid) (r c : Fin 9) (v : ℕ)
    (h0 : dfGet g r c = 0) (hv : v ≠ 0) :
    countZeros (dfSet g r c v) < countZeros g := by
  apply Finset.card_lt_card
  constructor
  · intro rc hrc
    simp only [Finset.mem_filter, Finset.mem_univ, true_and] at hrc ⊢
    by_cases hpq : rc.1 = c ∧ rc.2 = r
    · exfalso
      rw [show rc = (c, r) from Prod.ext hpq.1 hpq.2] at hrc
      simp only [dfSet, and_self, if_true] at hrc
      exact hv hrc
    · rwa [dfSet_apply_ne _ _ _ _ _ _ hpq] at hrc
  · intro hsub
    have hmem : (c, r) ∈ (Finset.univ : Finset (Fin 9 × Fin 9)).filter
        (fun rc => g rc.1 rc.2 = 0) := by
      simp only [Finset.mem_filter, Finset.mem_univ, true_and]
      exact h0
    have := hsub hmem
    simp only [Finset.mem_filter, Finset.mem_univ, true_and, dfSet, and_self,
      if_true] at this
    exact hv this

end CountZerosLemmas

section CountingLemmas

/-- In any list, two distinct members satisfying a predicate force its
`countP` to be at least two. -/
theorem two_le_countP_of_two_mem {α : Type} (p : α → Bool) (l : List α)
    (a b : α) (ha : a ∈ l) (hb : b ∈ l) (hab : a ≠ b)
    (hpa : p a = true) (hpb : p b = true) (hl : l.Nodup) :
    2 ≤ l.countP p := by
  induction l with
  | nil => cases ha
  | cons x xs ih =>
    have hx_not : x ∉ xs := (List.nodup_cons.mp hl).1
    have hxs : xs.Nodup := (List.nodup_cons.mp hl).2
    rcases List.mem_cons.mp ha with rfl | ha2
    · rcases List.mem_cons.mp hb with rfl | hb2
      · exact absurd rfl hab
      · rw [List.countP_cons_of_pos _ _ hpa]
        have : 0 < xs.countP p := List.countP_pos_iff.mpr ⟨b, hb2, hpb⟩
        omega
    · rcases List.mem_cons.mp hb with rfl | hb2
      · rw [List.countP_cons_of_pos _ _ hpb]
        have : 0 < xs.countP p := List.countP_pos_iff.mpr ⟨a, ha2, hpa⟩
        omega
      · have h2 := ih ha2 hb2 hxs
        calc 2 ≤ xs.countP p := h2
          _ ≤ (x :: xs).countP p := by rw [List.countP_cons]; omega

/-- Conversely, in a duplicate-free list a `countP` of at least two
yields two distinct members satisfying the predicate. -/
theorem exists_two_mem_of_countP {α : Type} (p : α → Bool) (l : List α)
    (hl : l.Nodup) (h : 2 ≤ l.countP p) :
    ∃ a b, a ∈ l ∧ b ∈ l ∧ a ≠ b ∧ p a = true ∧ p b = true := by
  induction l with
  | nil => simp at h
  | cons x xs ih =>
    have hx_not : x ∉ xs := (List.nodup_cons.mp hl).1
    have hxs : xs.Nodup := (List.nodup_cons.mp hl).2
    by_cases hpx : p x = true
    · rw [List.countP_cons_of_pos _ _ hpx] at h
      have h1 : 0 < xs.countP p := by omega
      obtain ⟨b, hb, hpb⟩ := List.countP_pos_iff.mp h1
      exact ⟨x, b, List.mem_cons_self x xs, List.mem_cons_of_mem x hb,
        fun hxb => hx_not (hxb ▸ hb), hpx, hpb⟩
    · rw [List.countP_cons_of_neg _ _ (by simpa using hpx)] at h
      obtain ⟨a, b, ha, hb, hab, hpa, hpb⟩ := ih hxs h
      exact ⟨a, b, List.mem_cons_of_mem x ha, List.mem_cons_of_mem x hb,
        hab, hpa, hpb⟩

/-- `__is_correct` fails exactly when some non-zero value has
multiplicity at least two. -/
theorem isCorrect_eq_false_iff (l : List ℕ) :
    isCorrect l = false ↔ ∃ v, v ≠ 0 ∧ 2 ≤ l.count v := by
  rw [isCorrect, List.all_eq_false]
  constructor
  · rintro ⟨v, hv, hcond⟩
    simp only [Bool.or_eq_true, beq_iff_eq, decide_eq_true_eq, not_or] at hcond
    exact ⟨v, hcond.1, by omega⟩
  · rintro ⟨v, hv, hcount⟩
    have hmem : v ∈ l := List.count_pos_iff.mp (by omega)
    refine ⟨v, hmem, ?_⟩
    simp only [Bool.or_eq_true, beq_iff_eq, decide_eq_true_eq, not_or]
    exact ⟨hv, by omega⟩

theorem isCorrect_eq_true_iff (l : List ℕ) :
    isCorrect l = true ↔ ∀ v, v ≠ 0 → l.count v ≤ 1 := by
  rw [isCorrect, List.all_eq_true]
  constructor
  · intro h v hv
    by_cases hm : v ∈ l
    · have := h v hm
      simp only [Bool.or_eq_true, beq_iff_eq, decide_eq_true_eq] at this
      rcases this with h0 | hle
      · exact absurd h0 hv
      · exact hle
    · simp [List.count_eq_zero.mpr hm]
  · intro h v hm
    simp only [Bool.or_eq_true, beq_iff_eq, decide_eq_true_eq]
    by_cases hv : v = 0
    · exact Or.inl hv
    · exact Or.inr (h v hv)

/-- Multiplicity of a value in a mapped enumeration, as a `countP`. -/
theorem count_map_eq_countP {α : Type} (f : α → ℕ) (l : List α) (v : ℕ) :
    ((l.map f).count v) = l.countP (fun a => f a == v) := by
  rw [List.count_eq_countP']
  rw [List.countP_map]
  rfl

end CountingLemmas

section UnitLemmas

theorem isCorrect_rowList_eq_false_iff (g : Grid) (i : Fin 9) :
    isCorrect (rowList g i) = false ↔
      ∃ j k : Fin 9, j ≠ k ∧ g i j = g i k ∧ g i j ≠ 0 := by
  rw [isCorrect_eq_false_iff]
  constructor
  · rintro ⟨v, hv, hcount⟩
    rw [rowList, count_map_eq_countP] at hcount
    obtain ⟨j, k, _, _, hjk, hpj, hpk⟩ :=
      exists_two_mem_of_countP _ _ (List.nodup_finRange 9) hcount
    rw [beq_iff_eq] at hpj hpk
    exact ⟨j, k, hjk, by rw [hpj, hpk], by rw [hpj]; exact hv⟩
  · rintro ⟨j, k, hjk, heq, hne⟩
    refine ⟨g i j, hne, ?_⟩
    rw [rowList, count_map_eq_countP]
    exact two_le_countP_of_two_mem _ _ j k (List.mem_finRange j)
      (List.mem_finRange k) hjk (by simp) (by simp [heq])
      (List.nodup_finRange 9)

theorem isCorrect_colList_eq_false_iff (g : Grid) (i : Fin 9) :
    isCorrect (colList g i) = false ↔
      ∃ j k : Fin 9, j ≠ k ∧ g j i = g k i ∧ g j i ≠ 0 := by
  rw [isCorrect_eq_false_iff]
  constructor
  · rintro ⟨v, hv, hcount⟩
    rw [colList, count_map_eq_countP] at hcount
    obtain ⟨j, k, _, _, hjk, hpj, hpk⟩ :=
      exists_two_mem_of_countP _ _ (List.nodup_finRange 9) hcount
    rw [beq_iff_eq] at hpj hpk
    exact ⟨j, k, hjk, by rw [hpj, hpk], by rw [hpj]; exact hv⟩
  · rintro ⟨j, k, hjk, heq, hne⟩
    refine ⟨g j i, hne, ?_⟩
    rw [colList, count_map_eq_countP]
    exact two_le_countP_of_two_mem _ _ j k (List.mem_finRange j)
      (List.mem_finRange k) hjk (by simp) (by simp [heq])
      (List.nodup_finRange 9)

theorem isCorrect_squareList_eq_false_iff (g : Grid) (kk : ℕ) :
    isCorrect (squareList g kk) = false ↔
      ∃ p q u w : Fin 9, (p, q) ≠ (u, w) ∧ sqId p q = kk ∧ sqId u w = kk ∧
        g p q = g u w ∧ g p q ≠ 0 := by
  rw [isCorrect_eq_false_iff]
  constructor
  · rintro ⟨v, hv, hcount⟩
    rw [squareList, count_map_eq_countP] at hcount
    obtain ⟨a, b, _, _, hab, hpa, hpb⟩ :=
      exists_two_mem_of_countP _ _ cells_nodup hcount
    rw [beq_iff_eq] at hpa hpb
    have ha : sqId a.1 a.2 = kk ∧ g a.1 a.2 = v := by
      by_cases h : sqId a.1 a.2 = kk
      · rw [if_pos h] at hpa; exact ⟨h, hpa⟩
      · rw [if_neg h] at hpa; exact absurd hpa.symm hv
    have hb : sqId b.1 b.2 = kk ∧ g b.1 b.2 = v := by
      by_cases h : sqId b.1 b.2 = kk
      · rw [if_pos h] at hpb; exact ⟨h, hpb⟩
      · rw [if_neg h] at hpb; exact absurd hpb.symm hv
    refine ⟨a.1, a.2, b.1, b.2, ?_, ha.1, hb.1, by rw [ha.2, hb.2], by rw [ha.2]; exact hv⟩
    intro hcon
    apply hab
    exact Prod.ext (congrArg Prod.fst hcon) (congrArg Prod.snd hcon)
  · rintro ⟨p, q, u, w, hne, hp, hu, heq, hnz⟩
    refine ⟨g p q, hnz, ?_⟩
    rw [squareList, count_map_eq_countP]
    exact two_le_countP_of_two_mem _ _ (p, q) (u, w) (mem_cells _)
      (mem_cells _) hne (by simp [hp]) (by simp [hu, heq]) cells_nodup

theorem checkSudoku_eq_true_iff (g : Grid) :
    checkSudoku g = true ↔ ∀ i : Fin 9,
      isCorrect (colList g i) = true ∧ isCorrect (rowList g i) = true ∧
        isCorrect (squareList g ((i : ℕ) + 1)) = true := by
  rw [checkSudoku, List.all_eq_true]
  constructor
  · intro h i
    have := h i (List.mem_finRange i)
    simp only [Bool.and_eq_true] at this
    exact ⟨this.1.1, this.1.2, this.2⟩
  · intro h i _
    simp only [Bool.and_eq_true]
    exact ⟨⟨(h i).1, (h i).2.1⟩, (h i).2.2⟩

theorem sqId_bounds (p q : Fin 9) : 1 ≤ sqId p q ∧ sqId p q ≤ 9 := by
  have hp : (p : ℕ) < 9 := p.isLt
  have hq : (q : ℕ) < 9 := q.isLt
  unfold sqId
  omega

/-- The solver's validity test fails exactly when the stored matrix has a
duplicate non-zero value in some row, column, or box. -/
theorem checkSudoku_eq_false_iff (g : Grid) :
    checkSudoku g = false ↔ hasDuplicate g := by
  constructor
  · intro h
    rw [Bool.eq_false_iff] at h
    rw [ne_eq, checkSudoku_eq_true_iff] at h
    push_neg at h
    obtain ⟨i, hi⟩ := h
    by_cases hc : isCorrect (colList g i) = true
    · by_cases hr : isCorrect (rowList g i) = true
      · have hs : isCorrect (squareList g ((i : ℕ) + 1)) = false := by
          rcases hi hc hr with h
          simpa using h
        obtain ⟨p, q, u, w, hne, hp, hu, heq, hnz⟩ :=
          (isCorrect_squareList_eq_false_iff g _).mp hs
        exact Or.inr (Or.inr ⟨p, q, u, w, hne, by rw [hp, hu], heq, hnz⟩)
      · have hr' : isCorrect (rowList g i) = false := by simpa using hr
        obtain ⟨j, k, hjk, heq, hnz⟩ := (isCorrect_rowList_eq_false_iff g i).mp hr'
        exact Or.inl ⟨i, j, k, hjk, heq, hnz⟩
    · have hc' : isCorrect (colList g i) = false := by simpa using hc
      obtain ⟨j, k, hjk, heq, hnz⟩ := (isCorrect_colList_eq_false_iff g i).mp hc'
      exact Or.inr (Or.inl ⟨i, j, k, hjk, heq, hnz⟩)
  · intro h
    rw [Bool.eq_false_iff, ne_eq, checkSudoku_eq_true_iff]
    push_neg
    rcases h with ⟨r, i, j, hij, heq, hnz⟩ | ⟨c, i, j, hij, heq, hnz⟩ |
      ⟨p, q, u, w, hne, hsq, heq, hnz⟩
    · refine ⟨r, fun _ hrow _ => ?_⟩
      rw [(isCorrect_rowList_eq_false_iff g r).mpr ⟨i, j, hij, heq, hnz⟩] at hrow
      cases hrow
    · refine ⟨c, fun hcol _ _ => ?_⟩
      rw [(isCorrect_colList_eq_false_iff g c).mpr ⟨i, j, hij, heq, hnz⟩] at hcol
      cases hcol
    · have hb := sqId_bounds p q
      refine ⟨⟨sqId p q - 1, by omega⟩, fun _ _ hsqr => ?_⟩
      have hk : ((⟨sqId p q - 1, by omega⟩ : Fin 9) : ℕ) + 1 = sqId p q := by
        simp; omega
      rw [hk] at hsqr
      rw [(isCorrect_squareList_eq_false_iff g (sqId p q)).mpr
        ⟨p, q, u, w, hne, rfl, hsq.symm, heq, hnz⟩] at hsqr
      cases hsqr

/-- A grid whose filled cells are a subset of those of a valid grid is
itself valid. -/
theorem checkSudoku_of_preserves (s h : Grid) (hs : checkSudoku s = true)
    (hp : Preserves s h) : checkSudoku h = true := by
  by_contra hcon
  have hfalse : checkSudoku h = false := by simpa using hcon
  have hdup : hasDuplicate h := (checkSudoku_eq_false_iff h).mp hfalse
  have hdups : hasDuplicate s := by
    rcases hdup with ⟨r, i, j, hij, heq, hnz⟩ | ⟨c, i, j, hij, heq, hnz⟩ |
      ⟨p, q, u, w, hne, hsq, heq, hnz⟩
    · exact Or.inl ⟨r, i, j, hij, by
        rw [hp r i hnz, hp r j (heq ▸ hnz)]; exact heq, by
        rw [hp r i hnz]; exact hnz⟩
    · exact Or.inr (Or.inl ⟨c, i, j, hij, by
        rw [hp i c hnz, hp j c (heq ▸ hnz)]; exact heq, by
        rw [hp i c hnz]; exact hnz⟩)
    · exact Or.inr (Or.inr ⟨p, q, u, w, hne, hsq, by
        rw [hp p q hnz, hp u w (heq ▸ hnz)]; exact heq, by
        rw [hp p q hnz]; exact hnz⟩)
  have := (checkSudoku_eq_false_iff s).mpr hdups
  rw [hs] at this
  cases this

end UnitLemmas

section SumLemmas

theorem rowList_length (g : Grid) (i : Fin 9) : (rowList g i).length = 9 := by
  simp [rowList]

theorem sum_filter_nonzero (l : List ℕ) :
    (l.filter (fun v => v != 0)).sum = l.sum := by
  induction l with
  | nil => rfl
  | cons x xs ih =>
    by_cases hx : x = 0
    · subst hx; simpa using ih
    · rw [List.filter_cons_of_pos (by simpa using hx)]
      simp [ih]

theorem length_filter_lt_of_zero_mem (l : List ℕ) (h : 0 ∈ l) :
    (l.filter (fun v => v != 0)).length < l.length := by
  induction l with
  | nil => cases h
  | cons x xs ih =>
    by_cases hx : x = 0
    · subst hx
      rw [List.filter_cons_of_neg (by simp)]
      have := List.length_filter_le (fun v => v != 0) xs
      simp only [List.length_cons]
      omega
    · rw [List.filter_cons_of_pos (by simpa using hx)]
      have hmem : 0 ∈ xs := by
        rcases List.mem_cons.mp h with h0 | h0
        · exact absurd h0.symm hx
        · exact h0
      have := ih hmem
      simp only [List.length_cons]
      omega

theorem filter_nonzero_nodup (l : List ℕ) (hc : isCorrect l = true) :
    (l.filter (fun v => v != 0)).Nodup := by
  rw [List.nodup_iff_count_le_one]
  intro a
  by_cases ha : a = 0
  · subst ha
    have : 0 ∉ l.filter (fun v => v != 0) := by simp
    simp [List.count_eq_zero.mpr this]
  · rw [List.count_filter (by simpa using ha)]
    exact (isCorrect_eq_true_iff l).mp hc a ha

theorem filter_nonzero_toFinset_subset (l : List ℕ) (h9 : ∀ v ∈ l, v ≤ 9) :
    (l.filter (fun v => v != 0)).toFinset ⊆ Finset.Icc 1 9 := by
  intro v hv
  rw [List.mem_toFinset, List.mem_filter] at hv
  have h1 : v ≠ 0 := by simpa using hv.2
  have h2 : v ≤ 9 := h9 v hv.1
  rw [Finset.mem_Icc]
  omega

theorem sum_Icc19 : (Finset.Icc 1 9).sum id = 45 := by decide

/-- A duplicate-free unit whose entries lie in 0..9 sums to at most 45. -/
theorem unit_sum_le_45 (l : List ℕ) (h9 : ∀ v ∈ l, v ≤ 9)
    (hc : isCorrect l = true) : l.sum ≤ 45 := by
  have hnd := filter_nonzero_nodup l hc
  have hsub := filter_nonzero_toFinset_subset l h9
  calc l.sum = (l.filter (fun v => v != 0)).sum := (sum_filter_nonzero l).symm
    _ = (l.filter (fun v => v != 0)).toFinset.sum id := by
        rw [List.sum_toFinset _ hnd, List.map_id]
    _ ≤ (Finset.Icc 1 9).sum id := Finset.sum_le_sum_of_subset hsub
    _ = 45 := sum_Icc19

/-- A duplicate-free 9-entry unit with entries in 0..9 that contains a
zero sums to at most 44. -/
theorem unit_sum_le_44 (l : List ℕ) (hlen : l.length = 9)
    (h9 : ∀ v ∈ l, v ≤ 9) (hc : isCorrect l = true) (h0 : 0 ∈ l) :
    l.sum ≤ 44 := by
  set m := l.filter (fun v => v != 0) with hm
  have hnd := filter_nonzero_nodup l hc
  have hsub := filter_nonzero_toFinset_subset l h9
  have hcard : m.toFinset.card ≤ 8 := by
    rw [List.toFinset_card_of_nodup hnd]
    have := length_filter_lt_of_zero_mem l h0
    omega
  have hnotsub : ¬ Finset.Icc 1 9 ⊆ m.toFinset := by
    intro hcon
    have := Finset.card_le_card hcon
    have hicc : (Finset.Icc 1 9).card = 9 := by decide
    omega
  obtain ⟨v0, hv0icc, hv0not⟩ : ∃ v0 ∈ Finset.Icc 1 9, v0 ∉ m.toFinset := by
    by_contra hcon
    push_neg at hcon
    exact hnotsub hcon
  have hsub2 : m.toFinset ⊆ (Finset.Icc 1 9).erase v0 := by
    intro x hx
    rw [Finset.mem_erase]
    exact ⟨fun hxv => hv0not (hxv ▸ hx), hsub hx⟩
  have herase : ((Finset.Icc 1 9).erase v0).sum id + v0 = 45 := by
    have h := Finset.sum_erase_add (Finset.Icc 1 9) id hv0icc
    rw [sum_Icc19] at h
    simpa using h
  have hv0ge : 1 ≤ v0 := (Finset.mem_Icc.mp hv0icc).1
  calc l.sum = m.sum := (sum_filter_nonzero l).symm
    _ = m.toFinset.sum id := by rw [List.sum_toFinset _ hnd, List.map_id]
    _ ≤ ((Finset.Icc 1 9).erase v0).sum id := Finset.sum_le_sum_of_subset hsub2
    _ ≤ 44 := by omega

/-- A duplicate-free 9-entry unit with entries in 0..9 and no zero is a
permutation of 1..9, hence sums to exactly 45. -/
theorem unit_sum_eq_45 (l : List ℕ) (hlen : l.length = 9)
    (h9 : ∀ v ∈ l, v ≤ 9) (hc : isCorrect l = true) (h0 : 0 ∉ l) :
    l.sum = 45 := by
  have hfilter : l.filter (fun v => v != 0) = l := by
    rw [List.filter_eq_self]
    intro a ha
    have : a ≠ 0 := fun hcon => h0 (hcon ▸ ha)
    simpa using this
  have hnd : l.Nodup := by
    have := filter_nonzero_nodup l hc
    rwa [hfilter] at this
  have hsub : l.toFinset ⊆ Finset.Icc 1 9 := by
    have := filter_nonzero_toFinset_subset l h9
    rwa [hfilter] at this
  have hcard : l.toFinset.card = 9 := by
    rw [List.toFinset_card_of_nodup hnd, hlen]
  have heq : l.toFinset = Finset.Icc 1 9 := by
    apply Finset.eq_of_subset_of_card_le hsub
    rw [hcard]
    decide
  calc l.sum = l.toFinset.sum id := by rw [List.sum_toFinset _ hnd, List.map_id]
    _ = (Finset.Icc 1 9).sum id := by rw [heq]
    _ = 45 := sum_Icc19

theorem sumGrid_eq_sum_univ (g : Grid) :
    sumGrid g = Finset.univ.sum (fun r => (rowList g r).sum) := by
  rw [sumGrid, Fin.sum_univ_def]

theorem rowList_entries_le (g : Grid) (hb : Bounded g) (i : Fin 9) :
    ∀ v ∈ rowList g i, v ≤ 9 := by
  intro v hv
  rw [rowList, List.mem_map] at hv
  obtain ⟨j, _, rfl⟩ := hv
  exact hb i j

theorem rowList_isCorrect (g : Grid) (hv : checkSudoku g = true) (i : Fin 9) :
    isCorrect (rowList g i) = true :=
  ((checkSudoku_eq_true_iff g).mp hv i).2.1

/-- A valid bounded grid with an empty cell sums to strictly less than
405. -/
theorem sumGrid_lt_405_of_zero (g : Grid) (hb : Bounded g)
    (hv : checkSudoku g = true) (p q : Fin 9) (h0 : g p q = 0) :
    sumGrid g < 405 := by
  rw [sumGrid_eq_sum_univ]
  have hlt : (Finset.univ.sum fun r => (rowList g r).sum) <
      Finset.univ.sum (fun _ : Fin 9 => 45) := by
    apply Finset.sum_lt_sum
    · intro i _
      exact unit_sum_le_45 _ (rowList_entries_le g hb i) (rowList_isCorrect g hv i)
    · refine ⟨p, Finset.mem_univ p, ?_⟩
      have h0mem : 0 ∈ rowList g p := by
        rw [rowList, List.mem_map]
        exact ⟨q, List.mem_finRange q, h0⟩
      have := unit_sum_le_44 _ (rowList_length g p)
        (rowList_entries_le g hb p) (rowList_isCorrect g hv p) h0mem
      omega
  have hconst : Finset.univ.sum (fun _ : Fin 9 => 45) = 405 := by
    rw [Finset.sum_const, Finset.card_univ]
    simp
  omega

/-- A valid bounded grid with no empty cell sums to exactly 405. -/
theorem sumGrid_eq_405_of_no_zero (g : Grid) (hb : Bounded g)
    (hv : checkSudoku g = true) (hnz : ∀ p q : Fin 9, g p q ≠ 0) :
    sumGrid g = 405 := by
  rw [sumGrid_eq_sum_univ]
  have : ∀ i ∈ (Finset.univ : Finset (Fin 9)), (rowList g i).sum = 45 := by
    intro i _
    apply unit_sum_eq_45 _ (rowList_length g i) (rowList_entries_le g hb i)
      (rowList_isCorrect g hv i)
    intro hcon
    rw [rowList, List.mem_map] at hcon
    obtain ⟨j, _, hj⟩ := hcon
    exact hnz i j hj
  rw [Finset.sum_congr rfl this, Finset.sum_const, Finset.card_univ]
  simp

theorem isComplete_eq_true_iff (g : Grid) :
    isComplete g = true ↔ sumGrid g = 405 := by
  rw [isComplete, beq_iff_eq]

/-- In a valid bounded grid, completeness of the sum forces every cell to
be non-zero. -/
theorem no_zero_of_complete (g : Grid) (hb : Bounded g)
    (hv : checkSudoku g = true) (hcomp : isComplete g = true) :
    ∀ p q : Fin 9, g p q ≠ 0 := by
  intro p q hcon
  have := sumGrid_lt_405_of_zero g hb hv p q hcon
  rw [isComplete_eq_true_iff] at hcomp
  omega

/-- In a valid bounded grid, an incomplete sum guarantees an empty cell,
so `__next_empty` never returns the `(-1, -1)` sentinel. -/
theorem nextEmpty_isSome_of_incomplete (g : Grid) (hb : Bounded g)
    (hv : checkSudoku g = true) (hcomp : isComplete g = false) :
    ∃ r c, nextEmpty g = some (r, c) := by
  by_cases hz : ∃ p q : Fin 9, g p q = 0
  · obtain ⟨p, q, h0⟩ := hz
    exact nextEmpty_isSome_of_zero g p q h0
  · push_neg at hz
    have := sumGrid_eq_405_of_no_zero g hb hv hz
    rw [← isComplete_eq_true_iff] at this
    rw [hcomp] at this
    cases this

end SumLemmas

section OptionsLemmas

theorem vals19_nodup : vals19.Nodup := by decide

theorem vals19_sorted : vals19.Sorted (· < ·) := by decide

theorem mem_vals19 (v : ℕ) : v ∈ vals19 ↔ 1 ≤ v ∧ v ≤ 9 := by
  simp only [vals19, List.mem_cons, List.not_mem_nil, or_false]
  omega

theorem eraseVals_cons (base : List ℕ) (x : ℕ) (xs : List ℕ) :
    eraseVals base (x :: xs) = eraseVals (base.erase x) xs := rfl

theorem eraseVals_sublist (base xs : List ℕ) :
    (eraseVals base xs).Sublist base := by
  induction xs generalizing base with
  | nil => exact List.Sublist.refl base
  | cons x xs ih =>
    rw [eraseVals_cons]
    exact (ih (base.erase x)).trans (List.erase_sublist x base)

theorem eraseVals_nodup (base xs : List ℕ) (h : base.Nodup) :
    (eraseVals base xs).Nodup :=
  (eraseVals_sublist base xs).nodup h

theorem mem_eraseVals_iff (base xs : List ℕ) (v : ℕ) (h : base.Nodup) :
    v ∈ eraseVals base xs ↔ v ∈ base ∧ v ∉ xs := by
  induction xs generalizing base with
  | nil => simp [eraseVals]
  | cons x xs ih =>
    rw [eraseVals_cons, ih (base.erase x) (h.erase x), h.mem_erase_iff]
    simp only [List.mem_cons, not_or]
    constructor
    · rintro ⟨⟨hvx, hvb⟩, hvxs⟩
      exact ⟨hvb, hvx, hvxs⟩
    · rintro ⟨hvb, hvx, hvxs⟩
      exact ⟨⟨hvx, hvb⟩, hvxs⟩

theorem mem_rowList_iff (g : Grid) (i : Fin 9) (v : ℕ) :
    v ∈ rowList g i ↔ ∃ j, g i j = v := by
  rw [rowList, List.mem_map]
  constructor
  · rintro ⟨j, _, hj⟩; exact ⟨j, hj⟩
  · rintro ⟨j, hj⟩; exact ⟨j, List.mem_finRange j, hj⟩

theorem mem_colList_iff (g : Grid) (i : Fin 9) (v : ℕ) :
    v ∈ colList g i ↔ ∃ j, g j i = v := by
  rw [colList, List.mem_map]
  constructor
  · rintro ⟨j, _, hj⟩; exact ⟨j, hj⟩
  · rintro ⟨j, hj⟩; exact ⟨j, List.mem_finRange j, hj⟩

theorem mem_squareList_iff (g : Grid) (k : ℕ) (v : ℕ) (hv : v ≠ 0) :
    v ∈ squareList g k ↔ ∃ p q : Fin 9, sqId p q = k ∧ g p q = v := by
  rw [squareList, List.mem_map]
  constructor
  · rintro ⟨rc, _, hrc⟩
    by_cases h : sqId rc.1 rc.2 = k
    · rw [if_pos h] at hrc
      exact ⟨rc.1, rc.2, h, hrc⟩
    · rw [if_neg h] at hrc
      exact absurd hrc.symm hv
  · rintro ⟨p, q, hk, hval⟩
    exact ⟨(p, q), mem_cells _, by rw [if_pos hk]; exact hval⟩

theorem getOptions_filled (g : Grid) (r c : Fin 9) (h : dfGet g r c ≠ 0) :
    getOptions g r c = [dfGet g r c] := by
  rw [getOptions, if_pos h]

theorem getOptions_empty_eq (g : Grid) (r c : Fin 9) (h : dfGet g r c = 0) :
    getOptions g r c =
      eraseVals (eraseVals (eraseVals vals19 (rowList g c)) (colList g r))
        (squareList g (3 * ((c : ℕ) / 3) + ((r : ℕ) / 3) + 1)) := by
  rw [getOptions, if_neg (by simp [h])]

theorem mem_getOptions_empty_iff (g : Grid) (r c : Fin 9) (v : ℕ)
    (h : dfGet g r c = 0) :
    v ∈ getOptions g r c ↔
      v ∈ vals19 ∧ v ∉ rowList g c ∧ v ∉ colList g r ∧
        v ∉ squareList g (3 * ((c : ℕ) / 3) + ((r : ℕ) / 3) + 1) := by
  rw [getOptions_empty_eq g r c h]
  rw [mem_eraseVals_iff _ _ _
    (eraseVals_nodup _ _ (eraseVals_nodup _ _ vals19_nodup))]
  rw [mem_eraseVals_iff _ _ _ (eraseVals_nodup _ _ vals19_nodup)]
  rw [mem_eraseVals_iff _ _ _ vals19_nodup]
  tauto

theorem getOptions_sorted (g : Grid) (r c : Fin 9) :
    (getOptions g r c).Sorted (· < ·) := by
  by_cases h : dfGet g r c = 0
  · rw [getOptions_empty_eq g r c h]
    exact vals19_sorted.sublist
      ((eraseVals_sublist _ _).trans
        ((eraseVals_sublist _ _).trans (eraseVals_sublist _ _)))
  · rw [getOptions_filled g r c h]
    simp

theorem getOptions_nonzero (g : Grid) (r c : Fin 9) (v : ℕ)
    (hv : v ∈ getOptions g r c) : v ≠ 0 := by
  by_cases h : dfGet g r c = 0
  · rw [mem_getOptions_empty_iff g r c v h] at hv
    have := (mem_vals19 v).mp hv.1
    omega
  · rw [getOptions_filled g r c h] at hv
    rw [List.mem_singleton] at hv
    exact hv ▸ h

theorem getOptions_le9 (g : Grid) (hb : Bounded g) (r c : Fin 9) (v : ℕ)
    (hv : v ∈ getOptions g r c) : v ≤ 9 := by
  by_cases h : dfGet g r c = 0
  · rw [mem_getOptions_empty_iff g r c v h] at hv
    exact ((mem_vals19 v).mp hv.1).2
  · rw [getOptions_filled g r c h] at hv
    rw [List.mem_singleton] at hv
    exact hv ▸ hb c r

end OptionsLemmas

section TryFillLemmas

theorem bounded_dfSet (g : Grid) (r c : Fin 9) (v : ℕ) (hb : Bounded g)
    (hv : v ≤ 9) : Bounded (dfSet g r c v) := by
  intro p q
  by_cases h : p = c ∧ q = r
  · obtain ⟨hp, hq⟩ := h; subst hp; subst hq; simpa [dfSet] using hv
  · rw [dfSet_apply_ne _ _ _ _ _ _ h]; exact hb p q

/-- If the candidate loop returns `False`, the grid it hands back is the
caller's grid with the gap reset to its original empty state. -/
theorem tryFill_ok_false (fill : Grid → FillResult) (r c : Fin 9)
    (hrest : ∀ g1 g2, fill g1 = .ok false g2 → g2 = g1) :
    ∀ (lst : List ℕ) (g0 g gf : Grid), AgreeOff r c g g0 →
      dfGet g0 r c = 0 → tryFill fill r c lst g = .ok false gf → gf = g0 := by
  intro lst
  induction lst with
  | nil =>
    intro g0 g gf hagree h0 h
    simp only [tryFill] at h
    injection h with _ h2
    rw [← h2, dfSet_eq_of_agreeOff r c g g0 0 hagree,
      dfSet_zero_of_get_zero g0 r c h0]
  | cons i rest ih =>
    intro g0 g gf hagree h0 h
    simp only [tryFill] at h
    by_cases hc : checkSudoku (dfSet g r c i) = true
    · rw [if_pos hc] at h
      cases hf : fill (dfSet g r c i) with
      | ok b g2 =>
        cases b with
        | true => rw [hf] at h; cases h
        | false =>
          rw [hf] at h
          have hg2 : g2 = dfSet g r c i := hrest _ _ hf
          exact ih g0 g2 gf (hg2 ▸ agreeOff_dfSet r c g g0 i hagree) h0 h
      | keyError => rw [hf] at h; cases h
      | fuelOut => rw [hf] at h; cases h
    · rw [if_neg hc] at h
      exact ih g0 (dfSet g r c i) gf (agreeOff_dfSet r c g g0 i hagree) h0 h

/-- If the candidate loop returns `True`, success came from a recursive
call on some grid that passed `__check_sudoku`. -/
theorem tryFill_ok_true (fill : Grid → FillResult) (r c : Fin 9) :
    ∀ (lst : List ℕ) (g gf : Grid), tryFill fill r c lst g = .ok true gf →
      ∃ gm, checkSudoku gm = true ∧ fill gm = .ok true gf := by
  intro lst
  induction lst with
  | nil =>
    intro g gf h
    simp only [tryFill] at h
    cases h
  | cons i rest ih =>
    intro g gf h
    simp only [tryFill] at h
    by_cases hc : checkSudoku (dfSet g r c i) = true
    · rw [if_pos hc] at h
      cases hf : fill (dfSet g r c i) with
      | ok b g2 =>
        cases b with
        | true =>
          rw [hf] at h
          injection h with _ h2
          exact ⟨dfSet g r c i, hc, by rw [hf, h2]⟩
        | false => rw [hf] at h; exact ih _ gf h
      | keyError => rw [hf] at h; cases h
      | fuelOut => rw [hf] at h; cases h
    · rw [if_neg hc] at h
      exact ih _ gf h

/-- Whatever boolean the candidate loop returns, every cell filled in the
caller's grid keeps its value. -/
theorem tryFill_preserves (fill : Grid → FillResult) (r c : Fin 9)
    (hfill : ∀ g1 g2 b, fill g1 = .ok b g2 → Preserves g2 g1)
    (hrest : ∀ g1 g2, fill g1 = .ok false g2 → g2 = g1) :
    ∀ (lst : List ℕ) (g0 g gf : Grid) (b : Bool), AgreeOff r c g g0 →
      dfGet g0 r c = 0 → tryFill fill r c lst g = .ok b gf →
      Preserves gf g0 := by
  intro lst
  induction lst with
  | nil =>
    intro g0 g gf b hagree h0 h
    simp only [tryFill] at h
    injection h with _ h2
    intro p q hpq
    have hne : ¬(p = c ∧ q = r) := by
      rintro ⟨rfl, rfl⟩
      exact hpq h0
    rw [← h2, dfSet_apply_ne _ _ _ _ _ _ hne]
    exact hagree p q hne
  | cons i rest ih =>
    intro g0 g gf b hagree h0 h
    simp only [tryFill] at h
    have hpres1 : Preserves (dfSet g r c i) g0 := by
      intro p q hpq
      have hne : ¬(p = c ∧ q = r) := by
        rintro ⟨rfl, rfl⟩
        exact hpq h0
      rw [dfSet_apply_ne _ _ _ _ _ _ hne]
      exact hagree p q hne
    by_cases hc : checkSudoku (dfSet g r c i) = true
    · rw [if_pos hc] at h
      cases hf : fill (dfSet g r c i) with
      | ok b2 g2 =>
        cases b2 with
        | true =>
          rw [hf] at h
          injection h with _ h2
          intro p q hpq
          rw [← h2]
          rw [hfill _ _ _ hf p q (by rw [hpres1 p q hpq]; exact hpq)]
          exact hpres1 p q hpq
        | false =>
          rw [hf] at h
          have hg2 : g2 = dfSet g r c i := hrest _ _ hf
          exact ih g0 g2 gf b (hg2 ▸ agreeOff_dfSet r c g g0 i hagree) h0 h
      | keyError => rw [hf] at h; cases h
      | fuelOut => rw [hf] at h; cases h
    · rw [if_neg hc] at h
      exact ih g0 (dfSet g r c i) gf b (agreeOff_dfSet r c g g0 i hagree) h0 h

/-- The candidate loop only ever writes candidate values or 0, so entry
bounds are maintained. -/
theorem tryFill_bounded (fill : Grid → FillResult) (r c : Fin 9)
    (hfill : ∀ g1 g2 b, Bounded g1 → fill g1 = .ok b g2 → Bounded g2) :
    ∀ (lst : List ℕ) (g gf : Grid) (b : Bool), (∀ v ∈ lst, v ≤ 9) →
      Bounded g → tryFill fill r c lst g = .ok b gf → Bounded gf := by
  intro lst
  induction lst with
  | nil =>
    intro g gf b _ hb h
    simp only [tryFill] at h
    injection h with _ h2
    rw [← h2]
    exact bounded_dfSet g r c 0 hb (by omega)
  | cons i rest ih =>
    intro g gf b hlst hb h
    simp only [tryFill] at h
    have hb1 : Bounded (dfSet g r c i) :=
      bounded_dfSet g r c i hb (hlst i (List.mem_cons_self i rest))
    have hrest9 : ∀ v ∈ rest, v ≤ 9 := fun v hv =>
      hlst v (List.mem_cons_of_mem i hv)
    by_cases hc : checkSudoku (dfSet g r c i) = true
    · rw [if_pos hc] at h
      cases hf : fill (dfSet g r c i) with
      | ok b2 g2 =>
        cases b2 with
        | true =>
          rw [hf] at h
          injection h with _ h2
          rw [← h2]
          exact hfill _ _ _ hb1 hf
        | false =>
          rw [hf] at h
          exact ih g2 gf b hrest9 (hfill _ _ _ hb1 hf) h
      | keyError => rw [hf] at h; cases h
      | fuelOut => rw [hf] at h; cases h
    · rw [if_neg hc] at h
      exact ih _ gf b hrest9 hb1 h

/-- The candidate loop cannot run out of fuel when the recursive calls it
makes (always on grids with one fewer empty cell) cannot. -/
theorem tryFill_ne_fuelOut (fill : Grid → FillResult) (r c : Fin 9) (n : ℕ)
    (hfill : ∀ g1, countZeros g1 < n → fill g1 ≠ .fuelOut)
    (hrest : ∀ g1 g2, fill g1 = .ok false g2 → g2 = g1) :
    ∀ (lst : List ℕ) (g : Grid), (∀ v ∈ lst, v ≠ 0) →
      (∀ v, v ≠ 0 → countZeros (dfSet g r c v) < n) →
      tryFill fill r c lst g ≠ .fuelOut := by
  intro lst
  induction lst with
  | nil =>
    intro g _ _ h
    simp only [tryFill] at h
    cases h
  | cons i rest ih =>
    intro g hlst hcz h
    simp only [tryFill] at h
    have hi0 : i ≠ 0 := hlst i (List.mem_cons_self i rest)
    have hrest0 : ∀ v ∈ rest, v ≠ 0 := fun v hv =>
      hlst v (List.mem_cons_of_mem i hv)
    have hcz1 : ∀ v, v ≠ 0 → countZeros (dfSet (dfSet g r c i) r c v) < n := by
      intro v hv
      rw [dfSet_dfSet]
      exact hcz v hv
    by_cases hc : checkSudoku (dfSet g r c i) = true
    · rw [if_pos hc] at h
      cases hf : fill (dfSet g r c i) with
      | ok b2 g2 =>
        cases b2 with
        | true => rw [hf] at h; cases h
        | false =>
          rw [hf] at h
          have hg2 : g2 = dfSet g r c i := hrest _ _ hf
          refine ih g2 hrest0 ?_ h
          intro v hv
          rw [hg2, dfSet_dfSet]
          exact hcz v hv
      | keyError => rw [hf] at h; cases h
      | fuelOut => exact hfill _ (hcz i hi0) hf
    · rw [if_neg hc] at h
      exact ih (dfSet g r c i) hrest0 hcz1 h

/-- The candidate loop never raises the sentinel `KeyError` when the
recursive calls (always made on check-passing, bounded grids) do not. -/
theorem tryFill_ne_keyError (fill : Grid → FillResult) (r c : Fin 9)
    (hfill : ∀ g1, checkSudoku g1 = true → Bounded g1 → fill g1 ≠ .keyError)
    (hrest : ∀ g1 g2, fill g1 = .ok false g2 → g2 = g1) :
    ∀ (lst : List ℕ) (g : Grid), (∀ v ∈ lst, v ≤ 9) → Bounded g →
      tryFill fill r c lst g ≠ .keyError := by
  intro lst
  induction lst with
  | nil =>
    intro g _ _ h
    simp only [tryFill] at h
    cases h
  | cons i rest ih =>
    intro g hlst hb h
    simp only [tryFill] at h
    have hb1 : Bounded (dfSet g r c i) :=
      bounded_dfSet g r c i hb (hlst i (List.mem_cons_self i rest))
    have hrest9 : ∀ v ∈ rest, v ≤ 9 := fun v hv =>
      hlst v (List.mem_cons_of_mem i hv)
    by_cases hc : checkSudoku (dfSet g r c i) = true
    · rw [if_pos hc] at h
      cases hf : fill (dfSet g r c i) with
      | ok b2 g2 =>
        cases b2 with
        | true => rw [hf] at h; cases h
        | false =>
          rw [hf] at h
          have hg2 : g2 = dfSet g r c i := hrest _ _ hf
          exact ih g2 hrest9 (hg2 ▸ hb1) h
      | keyError => exact hfill _ hc hb1 hf
      | fuelOut => rw [hf] at h; cases h
    · rw [if_neg hc] at h
      exact ih (dfSet g r c i) hrest9 hb1 h

end TryFillLemmas

section FillWrappers

/-- Restoration for the exhaustive strategy: a failed search hands back
the exact grid it started from. -/
theorem fillV1_ok_false : ∀ (fuel : ℕ) (g gf : Grid),
    fillV1 fuel g = .ok false gf → gf = g := by
  intro fuel
  induction fuel with
  | zero =>
    intro g gf h
    simp only [fillV1] at h
    cases h
  | succ n ih =>
    intro g gf h
    simp only [fillV1] at h
    by_cases hcomp : isComplete g = true
    · rw [if_pos hcomp] at h
      cases h
    · rw [if_neg hcomp] at h
      cases hne : nextEmpty g with
      | none => rw [hne] at h; cases h
      | some rc =>
        obtain ⟨r, c⟩ := rc
        rw [hne] at h
        exact tryFill_ok_false (fillV1 n) r c (fun g1 g2 => ih g1 g2)
          vals19 g g gf (agreeOff_refl r c g)
          (nextEmpty_some_get_zero g r c hne) h

/-- Restoration for the pruned strategy. -/
theorem fillV2_ok_false (opts : Fin 9 → Fin 9 → List ℕ) :
    ∀ (fuel : ℕ) (g gf : Grid), fillV2 opts fuel g = .ok false gf → gf = g := by
  intro fuel
  induction fuel with
  | zero =>
    intro g gf h
    simp only [fillV2] at h
    cases h
  | succ n ih =>
    intro g gf h
    simp only [fillV2] at h
    by_cases hcomp : isComplete g = true
    · rw [if_pos hcomp] at h
      cases h
    · rw [if_neg hcomp] at h
      cases hne : nextEmpty g with
      | none => rw [hne] at h; cases h
      | some rc =>
        obtain ⟨r, c⟩ := rc
        rw [hne] at h
        exact tryFill_ok_false (fillV2 opts n) r c (fun g1 g2 => ih g1 g2)
          (opts r c) g g gf (agreeOff_refl r c g)
          (nextEmpty_some_get_zero g r c hne) h

/-- Success soundness for the exhaustive strategy: from a check-passing
start, a `True` answer always carries a grid that passes both
`__check_sudoku` and `__is_complete`. -/
theorem fillV1_ok_true : ∀ (fuel : ℕ) (g gf : Grid), checkSudoku g = true →
    fillV1 fuel g = .ok true gf →
    checkSudoku gf = true ∧ isComplete gf = true := by
  intro fuel
  induction fuel with
  | zero =>
    intro g gf _ h
    simp only [fillV1] at h
    cases h
  | succ n ih =>
    intro g gf hv h
    simp only [fillV1] at h
    by_cases hcomp : isComplete g = true
    · rw [if_pos hcomp] at h
      injection h with _ h2
      exact h2 ▸ ⟨hv, hcomp⟩
    · rw [if_neg hcomp] at h
      cases hne : nextEmpty g with
      | none => rw [hne] at h; cases h
      | some rc =>
        obtain ⟨r, c⟩ := rc
        rw [hne] at h
        obtain ⟨gm, hgm, hfm⟩ := tryFill_ok_true (fillV1 n) r c vals19 g gf h
        exact ih gm gf hgm hfm

/-- Success soundness for the pruned strategy. -/
theorem fillV2_ok_true (opts : Fin 9 → Fin 9 → List ℕ) :
    ∀ (fuel : ℕ) (g gf : Grid), checkSudoku g = true →
    fillV2 opts fuel g = .ok true gf →
    checkSudoku gf = true ∧ isComplete gf = true := by
  intro fuel
  induction fuel with
  | zero =>
    intro g gf _ h
    simp only [fillV2] at h
    cases h
  | succ n ih =>
    intro g gf hv h
    simp only [fillV2] at h
    by_cases hcomp : isComplete g = true
    · rw [if_pos hcomp] at h
      injection h with _ h2
      exact h2 ▸ ⟨hv, hcomp⟩
    · rw [if_neg hcomp] at h
      cases hne : nextEmpty g with
      | none => rw [hne] at h; cases h
      | some rc =>
        obtain ⟨r, c⟩ := rc
        rw [hne] at h
        obtain ⟨gm, hgm, hfm⟩ := tryFill_ok_true (fillV2 opts n) r c (opts r c) g gf h
        exact ih gm gf hgm hfm

/-- The exhaustive search never erases a filled cell. -/
theorem fillV1_preserves : ∀ (fuel : ℕ) (g gf : Grid) (b : Bool),
    fillV1 fuel g = .ok b gf → Preserves gf g := by
  intro fuel
  induction fuel with
  | zero =>
    intro g gf b h
    simp only [fillV1] at h
    cases h
  | succ n ih =>
    intro g gf b h
    simp only [fillV1] at h
    by_cases hcomp : isComplete g = true
    · rw [if_pos hcomp] at h
      injection h with _ h2
      exact h2 ▸ fun p q _ => rfl
    · rw [if_neg hcomp] at h
      cases hne : nextEmpty g with
      | none => rw [hne] at h; cases h
      | some rc =>
        obtain ⟨r, c⟩ := rc
        rw [hne] at h
        exact tryFill_preserves (fillV1 n) r c
          (fun g1 g2 b2 => ih g1 g2 b2) (fun g1 g2 => fillV1_ok_false n g1 g2)
          vals19 g g gf b (agreeOff_refl r c g)
          (nextEmpty_some_get_zero g r c hne) h

/-- The pruned search never erases a filled cell. -/
theorem fillV2_preserves (opts : Fin 9 → Fin 9 → List ℕ) :
    ∀ (fuel : ℕ) (g gf : Grid) (b : Bool),
    fillV2 opts fuel g = .ok b gf → Preserves gf g := by
  intro fuel
  induction fuel with
  | zero =>
    intro g gf b h
    simp only [fillV2] at h
    cases h
  | succ n ih =>
    intro g gf b h
    simp only [fillV2] at h
    by_cases hcomp : isComplete g = true
    · rw [if_pos hcomp] at h
      injection h with _ h2
      exact h2 ▸ fun p q _ => rfl
    · rw [if_neg hcomp] at h
      cases hne : nextEmpty g with
      | none => rw [hne] at h; cases h
      | some rc =>
        obtain ⟨r, c⟩ := rc
        rw [hne] at h
        exact tryFill_preserves (fillV2 opts n) r c
          (fun g1 g2 b2 => ih g1 g2 b2)
          (fun g1 g2 => fillV2_ok_false opts n g1 g2)
          (opts r c) g g gf b (agreeOff_refl r c g)
          (nextEmpty_some_get_zero g r c hne) h

/-- The exhaustive search keeps all entries in 0..9. -/
theorem fillV1_bounded : ∀ (fuel : ℕ) (g gf : Grid) (b : Bool), Bounded g →
    fillV1 fuel g = .ok b gf → Bounded gf := by
  intro fuel
  induction fuel with
  | zero =>
    intro g gf b _ h
    simp only [fillV1] at h
    cases h
  | succ n ih =>
    intro g gf b hb h
    simp only [fillV1] at h
    by_cases hcomp : isComplete g = true
    · rw [if_pos hcomp] at h
      injection h with _ h2
      exact h2 ▸ hb
    · rw [if_neg hcomp] at h
      cases hne : nextEmpty g with
      | none => rw [hne] at h; cases h
      | some rc =>
        obtain ⟨r, c⟩ := rc
        rw [hne] at h
        refine tryFill_bounded (fillV1 n) r c
          (fun g1 g2 b2 hb1 => ih g1 g2 b2 hb1) vals19 g gf b ?_ hb h
        intro v hv
        exact ((mem_vals19 v).mp hv).2

/-- The pruned search keeps all entries in 0..9 provided all candidate
values are at most 9. -/
theorem fillV2_bounded (opts : Fin 9 → Fin 9 → List ℕ)
    (hopts : ∀ r c : Fin 9, ∀ v ∈ opts r c, v ≤ 9) :
    ∀ (fuel : ℕ) (g gf : Grid) (b : Bool), Bounded g →
    fillV2 opts fuel g = .ok b gf → Bounded gf := by
  intro fuel
  induction fuel with
  | zero =>
    intro g gf b _ h
    simp only [fillV2] at h
    cases h
  | succ n ih =>
    intro g gf b hb h
    simp only [fillV2] at h
    by_cases hcomp : isComplete g = true
    · rw [if_pos hcomp] at h
      injection h with _ h2
      exact h2 ▸ hb
    · rw [if_neg hcomp] at h
      cases hne : nextEmpty g with
      | none => rw [hne] at h; cases h
      | some rc =>
        obtain ⟨r, c⟩ := rc
        rw [hne] at h
        exact tryFill_bounded (fillV2 opts n) r c
          (fun g1 g2 b2 hb1 => ih g1 g2 b2 hb1) (opts r c) g gf b
          (hopts r c) hb h

/-- Termination of the exhaustive strategy: with fuel exceeding the
number of empty cells, the fuel never runs out (each recursive call is
made on a grid with strictly fewer empty cells). -/
theorem fillV1_ne_fuelOut : ∀ (fuel : ℕ) (g : Grid), countZeros g < fuel →
    fillV1 fuel g ≠ .fuelOut := by
  intro fuel
  induction fuel with
  | zero =>
    intro g hcz
    omega
  | succ n ih =>
    intro g hcz h
    simp only [fillV1] at h
    by_cases hcomp : isComplete g = true
    · rw [if_pos hcomp] at h
      cases h
    · rw [if_neg hcomp] at h
      cases hne : nextEmpty g with
      | none => rw [hne] at h; cases h
      | some rc =>
        obtain ⟨r, c⟩ := rc
        rw [hne] at h
        have h0 : dfGet g r c = 0 := nextEmpty_some_get_zero g r c hne
        refine tryFill_ne_fuelOut (fillV1 n) r c n
          (fun g1 hg1 => ih g1 hg1) (fun g1 g2 => fillV1_ok_false n g1 g2)
          vals19 g ?_ ?_ h
        · intro v hv
          have := (mem_vals19 v).mp hv
          omega
        · intro v hv
          have := countZeros_dfSet_lt g r c v h0 hv
          omega

/-- Termination of the pruned strategy (candidate tables never contain
the value 0). -/
theorem fillV2_ne_fuelOut (opts : Fin 9 → Fin 9 → List ℕ)
    (hopts : ∀ r c : Fin 9, ∀ v ∈ opts r c, v ≠ 0) :
    ∀ (fuel : ℕ) (g : Grid), countZeros g < fuel →
    fillV2 opts fuel g ≠ .fuelOut := by
  intro fuel
  induction fuel with
  | zero =>
    intro g hcz
    omega
  | succ n ih =>
    intro g hcz h
    simp only [fillV2] at h
    by_cases hcomp : isComplete g = true
    · rw [if_pos hcomp] at h
      cases h
    · rw [if_neg hcomp] at h
      cases hne : nextEmpty g with
      | none => rw [hne] at h; cases h
      | some rc =>
        obtain ⟨r, c⟩ := rc
        rw [hne] at h
        have h0 : dfGet g r c = 0 := nextEmpty_some_get_zero g r c hne
        refine tryFill_ne_fuelOut (fillV2 opts n) r c n
          (fun g1 hg1 => ih g1 hg1) (fun g1 g2 => fillV2_ok_false opts n g1 g2)
          (opts r c) g (hopts r c) ?_ h
        intro v hv
        have := countZeros_dfSet_lt g r c v h0 hv
        omega

/-- From a check-passing bounded grid the exhaustive search never reaches
the `(-1, -1)` sentinel: an incomplete sum always leaves an empty cell. -/
theorem fillV1_ne_keyError : ∀ (fuel : ℕ) (g : Grid), checkSudoku g = true →
    Bounded g → fillV1 fuel g ≠ .keyError := by
  intro fuel
  induction fuel with
  | zero =>
    intro g _ _ h
    simp only [fillV1] at h
    cases h
  | succ n ih =>
    intro g hv hb h
    simp only [fillV1] at h
    by_cases hcomp : isComplete g = true
    · rw [if_pos hcomp] at h
      cases h
    · rw [if_neg hcomp] at h
      cases hne : nextEmpty g with
      | none =>
        obtain ⟨r, c, hsome⟩ := nextEmpty_isSome_of_incomplete g hb hv
          (by simpa using hcomp)
        rw [hne] at hsome
        cases hsome
      | some rc =>
        obtain ⟨r, c⟩ := rc
        rw [hne] at h
        refine tryFill_ne_keyError (fillV1 n) r c
          (fun g1 hg1 hb1 => ih g1 hg1 hb1)
          (fun g1 g2 => fillV1_ok_false n g1 g2) vals19 g ?_ hb h
        intro v hv2
        exact ((mem_vals19 v).mp hv2).2

/-- From a check-passing bounded grid the pruned search never reaches the
`(-1, -1)` sentinel. -/
theorem fillV2_ne_keyError (opts : Fin 9 → Fin 9 → List ℕ)
    (hopts : ∀ r c : Fin 9, ∀ v ∈ opts r c, v ≤ 9) :
    ∀ (fuel : ℕ) (g : Grid), checkSudoku g = true →
    Bounded g → fillV2 opts fuel g ≠ .keyError := by
  intro fuel
  induction fuel with
  | zero =>
    intro g _ _ h
    simp only [fillV2] at h
    cases h
  | succ n ih =>
    intro g hv hb h
    simp only [fillV2] at h
    by_cases hcomp : isComplete g = true
    · rw [if_pos hcomp] at h
      cases h
    · rw [if_neg hcomp] at h
      cases hne : nextEmpty g with
      | none =>
        obtain ⟨r, c, hsome⟩ := nextEmpty_isSome_of_incomplete g hb hv
          (by simpa using hcomp)
        rw [hne] at hsome
        cases hsome
      | some rc =>
        obtain ⟨r, c⟩ := rc
        rw [hne] at h
        exact tryFill_ne_keyError (fillV2 opts n) r c
          (fun g1 hg1 hb1 => ih g1 hg1 hb1)
          (fun g1 g2 => fillV2_ok_false opts n g1 g2) (opts r c) g
          (hopts r c) hb h

/-- Totality: from a check-passing bounded start with enough fuel, the
exhaustive search returns a normal boolean result. -/
theorem fillV1_total (fuel : ℕ) (g : Grid) (hcz : countZeros g < fuel)
    (hv : checkSudoku g = true) (hb : Bounded g) :
    ∃ b gf, fillV1 fuel g = .ok b gf := by
  cases hres : fillV1 fuel g with
  | ok b gf => exact ⟨b, gf, rfl⟩
  | keyError => exact absurd hres (fillV1_ne_keyError fuel g hv hb)
  | fuelOut => exact absurd hres (fillV1_ne_fuelOut fuel g hcz)

/-- Totality for the pruned search. -/
theorem fillV2_total (opts : Fin 9 → Fin 9 → List ℕ)
    (hopts9 : ∀ r c : Fin 9, ∀ v ∈ opts r c, v ≤ 9)
    (hopts0 : ∀ r c : Fin 9, ∀ v ∈ opts r c, v ≠ 0)
    (fuel : ℕ) (g : Grid) (hcz : countZeros g < fuel)
    (hv : checkSudoku g = true) (hb : Bounded g) :
    ∃ b gf, fillV2 opts fuel g = .ok b gf := by
  cases hres : fillV2 opts fuel g with
  | ok b gf => exact ⟨b, gf, rfl⟩
  | keyError => exact absurd hres (fillV2_ne_keyError opts hopts9 fuel g hv hb)
  | fuelOut => exact absurd hres (fillV2_ne_fuelOut opts hopts0 fuel g hcz)

end FillWrappers

section UniqueSearchLemmas

theorem colList_isCorrect (g : Grid) (hv : checkSudoku g = true) (i : Fin 9) :
    isCorrect (colList g i) = true :=
  ((checkSudoku_eq_true_iff g).mp hv i).1

theorem squareList_isCorrect (g : Grid) (hv : checkSudoku g = true) (k : ℕ)
    (h1 : 1 ≤ k) (h2 : k ≤ 9) : isCorrect (squareList g k) = true := by
  have := ((checkSudoku_eq_true_iff g).mp hv ⟨k - 1, by omega⟩).2.2
  have hk : ((⟨k - 1, by omega⟩ : Fin 9) : ℕ) + 1 = k := by simp; omega
  rwa [hk] at this

/-- A solution of `g0` is a solution of `g0` with its gap at pandas label
`(r, c)` filled by the solution's own value there. -/
theorem isSolution_dfSet (s g0 : Grid) (r c : Fin 9)
    (hsol : IsSolution s g0) (h0 : dfGet g0 r c = 0) :
    IsSolution s (dfSet g0 r c (dfGet s r c)) := by
  obtain ⟨hvs, hcs, hbs, hps⟩ := hsol
  refine ⟨hvs, hcs, hbs, ?_⟩
  intro p q hpq
  by_cases hcell : p = c ∧ q = r
  · obtain ⟨rfl, rfl⟩ := hcell
    simp [dfSet, dfGet]
  · rw [dfSet_apply_ne _ _ _ _ _ _ hcell] at hpq ⊢
    exact hps p q hpq

theorem uniq_dfSet (s g0 : Grid) (r c : Fin 9) (v : ℕ)
    (h0 : dfGet g0 r c = 0) (huniq : ∀ t, IsSolution t g0 → t = s) :
    ∀ t, IsSolution t (dfSet g0 r c v) → t = s := by
  intro t ⟨hvt, hct, hbt, hpt⟩
  refine huniq t ⟨hvt, hct, hbt, ?_⟩
  intro p q hpq
  have hcell : ¬(p = c ∧ q = r) := by
    rintro ⟨rfl, rfl⟩
    exact hpq h0
  rw [← dfSet_apply_ne g0 r c v p q hcell]
  exact hpt p q (by rwa [dfSet_apply_ne g0 r c v p q hcell])

/-- Core search-completeness step for the exhaustive strategy: if the
unique solution's value for the current gap is still among the pending
candidates, the loop succeeds and returns exactly that solution. -/
theorem tryFill_finds_v1 (n : ℕ) (r c : Fin 9) (g0 s : Grid)
    (hb0 : Bounded g0) (hcz : countZeros g0 ≤ n) (h0 : dfGet g0 r c = 0)
    (hsol : IsSolution s g0) (huniq : ∀ t, IsSolution t g0 → t = s)
    (hind : ∀ g1, checkSudoku g1 = true → Bounded g1 → countZeros g1 < n →
      IsSolution s g1 → (∀ t, IsSolution t g1 → t = s) →
      fillV1 n g1 = .ok true s) :
    ∀ (lst : List ℕ) (g : Grid), AgreeOff r c g g0 → Bounded g →
      (∀ x ∈ lst, x ∈ vals19) → dfGet s r c ∈ lst →
      tryFill (fillV1 n) r c lst g = .ok true s := by
  have hs0 : ∀ p q : Fin 9, s p q ≠ 0 :=
    no_zero_of_complete s hsol.2.2.1 hsol.1 hsol.2.1
  have hv_ne : dfGet s r c ≠ 0 := hs0 c r
  have hv_le : dfGet s r c ≤ 9 := hsol.2.2.1 c r
  intro lst
  induction lst with
  | nil =>
    intro g _ _ _ hmem
    cases hmem
  | cons i rest ih =>
    intro g hagree hbg hsub hmem
    have hi19 : i ∈ vals19 := hsub i (List.mem_cons_self i rest)
    have hi_ne : i ≠ 0 := by
      have := (mem_vals19 i).mp hi19
      omega
    have hi_le : i ≤ 9 := ((mem_vals19 i).mp hi19).2
    have hrest : ∀ x ∈ rest, x ∈ vals19 := fun x hx =>
      hsub x (List.mem_cons_of_mem i hx)
    simp only [tryFill]
    rw [dfSet_eq_of_agreeOff r c g g0 i hagree]
    have hg1b : Bounded (dfSet g0 r c i) := bounded_dfSet g0 r c i hb0 hi_le
    have hg1cz : countZeros (dfSet g0 r c i) < n := by
      have := countZeros_dfSet_lt g0 r c i h0 hi_ne
      omega
    by_cases hiv : i = dfGet s r c
    · have hsol1 : IsSolution s (dfSet g0 r c i) := by
        rw [hiv]
        exact isSolution_dfSet s g0 r c hsol h0
      have hc1 : checkSudoku (dfSet g0 r c i) = true :=
        checkSudoku_of_preserves s _ hsol.1 hsol1.2.2.2
      rw [if_pos hc1]
      rw [hind (dfSet g0 r c i) hc1 hg1b hg1cz hsol1
        (uniq_dfSet s g0 r c i h0 huniq)]
    · have hmem' : dfGet s r c ∈ rest := by
        rcases List.mem_cons.mp hmem with hcase | hcase
        · exact absurd hcase.symm hiv
        · exact hcase
      by_cases hc1 : checkSudoku (dfSet g0 r c i) = true
      · rw [if_pos hc1]
        cases hf : fillV1 n (dfSet g0 r c i) with
        | ok b2 g2 =>
          cases b2 with
          | true =>
            exfalso
            have hval2 := fillV1_ok_true n _ g2 hc1 hf
            have hb2 := fillV1_bounded n _ g2 true hg1b hf
            have hp2 : Preserves g2 (dfSet g0 r c i) :=
              fillV1_preserves n _ g2 true hf
            have hsol2 : IsSolution g2 g0 := by
              refine ⟨hval2.1, hval2.2, hb2, ?_⟩
              intro p q hpq
              have hcell : ¬(p = c ∧ q = r) := by
                rintro ⟨rfl, rfl⟩
                exact hpq h0
              rw [hp2 p q (by rwa [dfSet_apply_ne g0 r c i p q hcell]),
                dfSet_apply_ne g0 r c i p q hcell]
            have hg2s : g2 = s := huniq g2 hsol2
            have hcell_val : g2 c r = i := by
              have : (dfSet g0 r c i) c r = i := by simp [dfSet]
              rw [hp2 c r (by rw [this]; exact hi_ne), this]
            rw [hg2s] at hcell_val
            exact hiv hcell_val.symm
          | false =>
            have hg2 : g2 = dfSet g0 r c i := fillV1_ok_false n _ g2 hf
            exact ih g2 (hg2 ▸ agreeOff_dfSet r c g0 g0 i (agreeOff_refl r c g0))
              (hg2 ▸ hg1b) hrest hmem'
        | keyError => exact absurd hf (fillV1_ne_keyError n _ hc1 hg1b)
        | fuelOut => exact absurd hf (fillV1_ne_fuelOut n _ hg1cz)
      · rw [if_neg hc1]
        exact ih (dfSet g0 r c i)
          (agreeOff_dfSet r c g0 g0 i (agreeOff_refl r c g0)) hg1b hrest hmem'

/-- Search completeness for the exhaustive strategy: a uniquely solvable,
check-passing, bounded start is solved, and the unique solution is
returned. -/
theorem fillV1_finds : ∀ (fuel : ℕ) (g : Grid), checkSudoku g = true →
    Bounded g → countZeros g < fuel → ∀ s, IsSolution s g →
    (∀ t, IsSolution t g → t = s) → fillV1 fuel g = .ok true s := by
  intro fuel
  induction fuel with
  | zero =>
    intro g _ _ hcz
    omega
  | succ n ih =>
    intro g hv hb hcz s hsol huniq
    simp only [fillV1]
    by_cases hcomp : isComplete g = true
    · rw [if_pos hcomp]
      have : g = s := huniq g ⟨hv, hcomp, hb, fun p q _ => rfl⟩
      rw [this]
    · rw [if_neg hcomp]
      obtain ⟨r, c, hsome⟩ := nextEmpty_isSome_of_incomplete g hb hv
        (by simpa using hcomp)
      rw [hsome]
      have h0 : dfGet g r c = 0 := nextEmpty_some_get_zero g r c hsome
      refine tryFill_finds_v1 n r c g s hb (by omega) h0 hsol huniq
        (fun g1 hv1 hb1 hcz1 hsol1 huniq1 => ih g1 hv1 hb1 hcz1 s hsol1 huniq1)
        vals19 g (agreeOff_refl r c g) hb (fun x hx => hx) ?_
      rw [mem_vals19]
      have := no_zero_of_complete s hsol.2.2.1 hsol.1 hsol.2.1 c r
      have := hsol.2.2.1 c r
      constructor
      · have : dfGet s r c ≠ 0 :=
          no_zero_of_complete s hsol.2.2.1 hsol.1 hsol.2.1 c r
        omega
      · exact hsol.2.2.1 c r

theorem preserves_trans (a b c : Grid) (hab : Preserves a b)
    (hbc : Preserves b c) : Preserves a c := by
  intro p q hpq
  have hb := hbc p q hpq
  rw [← hb]
  exact hab p q (by rwa [hb])

/-- The unique solution's value for a gap of the original grid survives
the candidate pruning of `__get_options`. -/
theorem sol_val_mem_getOptions (gtop s : Grid) (hst : Preserves s gtop)
    (hvs : checkSudoku s = true) (hs0 : ∀ p q : Fin 9, s p q ≠ 0)
    (hbs : Bounded s) (r c : Fin 9) (h0 : dfGet gtop r c = 0) :
    dfGet s r c ∈ getOptions gtop r c := by
  have hvne : dfGet s r c ≠ 0 := hs0 c r
  rw [mem_getOptions_empty_iff gtop r c _ h0]
  refine ⟨?_, ?_, ?_, ?_⟩
  · rw [mem_vals19]
    exact ⟨by have := hs0 c r; omega, hbs c r⟩
  · intro hmem
    rw [mem_rowList_iff] at hmem
    obtain ⟨j, hj⟩ := hmem
    have hsj : s c j = dfGet s r c := by
      rw [← hj]
      exact hst c j (by rw [hj]; exact hvne)
    have hjr : j ≠ r := by
      intro hjr
      rw [hjr] at hj
      exact hvne (by rw [← hj]; exact h0)
    have hfail : isCorrect (rowList s c) = false :=
      (isCorrect_rowList_eq_false_iff s c).mpr
        ⟨j, r, hjr, by rw [hsj]; rfl, by rw [hsj]; exact hvne⟩
    rw [rowList_isCorrect s hvs c] at hfail
    cases hfail
  · intro hmem
    rw [mem_colList_iff] at hmem
    obtain ⟨j, hj⟩ := hmem
    have hsj : s j r = dfGet s r c := by
      rw [← hj]
      exact hst j r (by rw [hj]; exact hvne)
    have hjc : j ≠ c := by
      intro hjc
      rw [hjc] at hj
      exact hvne (by rw [← hj]; exact h0)
    have hfail : isCorrect (colList s r) = false :=
      (isCorrect_colList_eq_false_iff s r).mpr
        ⟨j, c, hjc, by rw [hsj]; rfl, by rw [hsj]; exact hvne⟩
    rw [colList_isCorrect s hvs r] at hfail
    cases hfail
  · intro hmem
    rw [mem_squareList_iff gtop _ _ hvne] at hmem
    obtain ⟨p, q, hpq, hval⟩ := hmem
    have hsv : s p q = dfGet s r c := by
      rw [← hval]
      exact hst p q (by rw [hval]; exact hvne)
    have hne : (p, q) ≠ (c, r) := by
      intro hcon
      injection hcon with h1 h2
      rw [h1, h2] at hval
      exact hvne (by rw [← hval]; exact h0)
    have hsq_cr : sqId c r = 3 * ((c : ℕ) / 3) + ((r : ℕ) / 3) + 1 := rfl
    have hfail : isCorrect
        (squareList s (3 * ((c : ℕ) / 3) + ((r : ℕ) / 3) + 1)) = false :=
      (isCorrect_squareList_eq_false_iff s _).mpr
        ⟨p, q, c, r, hne, hpq, hsq_cr.symm ▸ rfl,
          by rw [hsv]; rfl, by rw [hsv]; exact hvne⟩
    have hok := squareList_isCorrect s hvs
      (3 * ((c : ℕ) / 3) + ((r : ℕ) / 3) + 1)
      (by omega) (by
        have hc3 : (c : ℕ) < 9 := c.isLt
        have hr3 : (r : ℕ) < 9 := r.isLt
        omega)
    rw [hok] at hfail
    cases hfail

/-- Core search-completeness step for the pruned strategy. -/
theorem tryFill_finds_v2 (gtop : Grid) (hbt : Bounded gtop) (n : ℕ)
    (r c : Fin 9) (g0 s : Grid)
    (hb0 : Bounded g0) (hcz : countZeros g0 ≤ n) (h0 : dfGet g0 r c = 0)
    (hpres0 : Preserves g0 gtop)
    (hsol : IsSolution s g0) (huniq : ∀ t, IsSolution t g0 → t = s)
    (hind : ∀ g1, checkSudoku g1 = true → Bounded g1 → countZeros g1 < n →
      Preserves g1 gtop → IsSolution s g1 → (∀ t, IsSolution t g1 → t = s) →
      fillV2 (getOptions gtop) n g1 = .ok true s) :
    ∀ (lst : List ℕ) (g : Grid), AgreeOff r c g g0 → Bounded g →
      (∀ x ∈ lst, x ≠ 0 ∧ x ≤ 9) → dfGet s r c ∈ lst →
      tryFill (fillV2 (getOptions gtop) n) r c lst g = .ok true s := by
  have hs0 : ∀ p q : Fin 9, s p q ≠ 0 :=
    no_zero_of_complete s hsol.2.2.1 hsol.1 hsol.2.1
  have htop0 : dfGet gtop r c = 0 := by
    by_contra hcon
    have heq : g0 c r = gtop c r := hpres0 c r hcon
    apply hcon
    show gtop c r = 0
    rw [← heq]
    exact h0
  have hopts9 : ∀ r2 c2 : Fin 9, ∀ v ∈ getOptions gtop r2 c2, v ≤ 9 :=
    fun r2 c2 v hv => getOptions_le9 gtop hbt r2 c2 v hv
  have hopts0 : ∀ r2 c2 : Fin 9, ∀ v ∈ getOptions gtop r2 c2, v ≠ 0 :=
    fun r2 c2 v hv => getOptions_nonzero gtop r2 c2 v hv
  intro lst
  induction lst with
  | nil =>
    intro g _ _ _ hmem
    cases hmem
  | cons i rest ih =>
    intro g hagree hbg hsub hmem
    have hi_ne : i ≠ 0 := (hsub i (List.mem_cons_self i rest)).1
    have hi_le : i ≤ 9 := (hsub i (List.mem_cons_self i rest)).2
    have hrest : ∀ x ∈ rest, x ≠ 0 ∧ x ≤ 9 := fun x hx =>
      hsub x (List.mem_cons_of_mem i hx)
    simp only [tryFill]
    rw [dfSet_eq_of_agreeOff r c g g0 i hagree]
    have hg1b : Bounded (dfSet g0 r c i) := bounded_dfSet g0 r c i hb0 hi_le
    have hg1cz : countZeros (dfSet g0 r c i) < n := by
      have := countZeros_dfSet_lt g0 r c i h0 hi_ne
      omega
    have hg1pres : Preserves (dfSet g0 r c i) gtop := by
      intro p q hpq
      have hcell : ¬(p = c ∧ q = r) := by
        rintro ⟨rfl, rfl⟩
        exact hpq htop0
      rw [dfSet_apply_ne g0 r c i p q hcell]
      exact hpres0 p q hpq
    by_cases hiv : i = dfGet s r c
    · have hsol1 : IsSolution s (dfSet g0 r c i) := by
        rw [hiv]
        exact isSolution_dfSet s g0 r c hsol h0
      have hc1 : checkSudoku (dfSet g0 r c i) = true :=
        checkSudoku_of_preserves s _ hsol.1 hsol1.2.2.2
      rw [if_pos hc1]
      rw [hind (dfSet g0 r c i) hc1 hg1b hg1cz hg1pres hsol1
        (uniq_dfSet s g0 r c i h0 huniq)]
    · have hmem' : dfGet s r c ∈ rest := by
        rcases List.mem_cons.mp hmem with hcase | hcase
        · exact absurd hcase.symm hiv
        · exact hcase
      by_cases hc1 : checkSudoku (dfSet g0 r c i) = true
      · rw [if_pos hc1]
        cases hf : fillV2 (getOptions gtop) n (dfSet g0 r c i) with
        | ok b2 g2 =>
          cases b2 with
          | true =>
            exfalso
            have hval2 := fillV2_ok_true (getOptions gtop) n _ g2 hc1 hf
            have hb2 := fillV2_bounded (getOptions gtop) hopts9 n _ g2 true hg1b hf
            have hp2 : Preserves g2 (dfSet g0 r c i) :=
              fillV2_preserves (getOptions gtop) n _ g2 true hf
            have hsol2 : IsSolution g2 g0 := by
              refine ⟨hval2.1, hval2.2, hb2, ?_⟩
              intro p q hpq
              have hcell : ¬(p = c ∧ q = r) := by
                rintro ⟨rfl, rfl⟩
                exact hpq h0
              rw [hp2 p q (by rwa [dfSet_apply_ne g0 r c i p q hcell]),
                dfSet_apply_ne g0 r c i p q hcell]
            have hg2s : g2 = s := huniq g2 hsol2
            have hcell_val : g2 c r = i := by
              have h1 : (dfSet g0 r c i) c r = i := by simp [dfSet]
              rw [hp2 c r (by rw [h1]; exact hi_ne), h1]
            rw [hg2s] at hcell_val
            exact hiv hcell_val.symm
          | false =>
            have hg2 : g2 = dfSet g0 r c i := fillV2_ok_false (getOptions gtop) n _ g2 hf
            exact ih g2 (hg2 ▸ agreeOff_dfSet r c g0 g0 i (agreeOff_refl r c g0))
              (hg2 ▸ hg1b) hrest hmem'
        | keyError =>
          exact absurd hf (fillV2_ne_keyError (getOptions gtop) hopts9 n _ hc1 hg1b)
        | fuelOut =>
          exact absurd hf (fillV2_ne_fuelOut (getOptions gtop) hopts0 n _ hg1cz)
      · rw [if_neg hc1]
        exact ih (dfSet g0 r c i)
          (agreeOff_dfSet r c g0 g0 i (agreeOff_refl r c g0)) hg1b hrest hmem'

/-- Search completeness for the pruned strategy: from any grid derived
from `gtop` (in particular `gtop` itself), a unique solution of the
current grid is found and returned. -/
theorem fillV2_finds (gtop : Grid) (hbt : Bounded gtop) :
    ∀ (fuel : ℕ) (g : Grid), checkSudoku g = true → Bounded g →
    countZeros g < fuel → Preserves g gtop → ∀ s, IsSolution s g →
    (∀ t, IsSolution t g → t = s) →
    fillV2 (getOptions gtop) fuel g = .ok true s := by
  intro fuel
  induction fuel with
  | zero =>
    intro g _ _ hcz
    omega
  | succ n ih =>
    intro g hv hb hcz hpres s hsol huniq
    simp only [fillV2]
    by_cases hcomp : isComplete g = true
    · rw [if_pos hcomp]
      have : g = s := huniq g ⟨hv, hcomp, hb, fun p q _ => rfl⟩
      rw [this]
    · rw [if_neg hcomp]
      obtain ⟨r, c, hsome⟩ := nextEmpty_isSome_of_incomplete g hb hv
        (by simpa using hcomp)
      rw [hsome]
      have h0 : dfGet g r c = 0 := nextEmpty_some_get_zero g r c hsome
      have htop0 : dfGet gtop r c = 0 := by
        by_contra hcon
        have heq : g c r = gtop c r := hpres c r hcon
        apply hcon
        show gtop c r = 0
        rw [← heq]
        exact h0
      have hs0 : ∀ p q : Fin 9, s p q ≠ 0 :=
        no_zero_of_complete s hsol.2.2.1 hsol.1 hsol.2.1
      refine tryFill_finds_v2 gtop hbt n r c g s hb (by omega) h0 hpres hsol
        huniq
        (fun g1 hv1 hb1 hcz1 hp1 hsol1 huniq1 =>
          ih g1 hv1 hb1 hcz1 hp1 s hsol1 huniq1)
        (getOptions gtop r c) g (agreeOff_refl r c g) hb
        (fun x hx => ⟨getOptions_nonzero gtop r c x hx,
          getOptions_le9 gtop hbt r c x hx⟩) ?_
      exact sol_val_mem_getOptions gtop s
        (preserves_trans s g gtop hsol.2.2.2 hpres) hsol.1 hs0 hsol.2.2.1
        r c htop0

end UniqueSearchLemmas

section Claims

/-- C1 (counterexample): `__is_complete` tests only the sum, so on a grid
of 45 nines and 36 zeros it returns true although many cells are empty:
"true iff every cell is non-zero AND the sum equals 405" is false of the
code as a statement about all grids with entries in 0..9. -/
theorem c1_counterexample :
    ¬(isComplete sum405Grid = true ↔
      ((∀ p q : Fin 9, sum405Grid p q ≠ 0) ∧ sumGrid sum405Grid = 405)) := by
  decide

/-- C1 (amended): `__is_complete` returns true iff the 81 cells sum to
405; it performs no per-cell non-zero test, but for grids that satisfy
the solver's own validity invariant `__check_sudoku` (as every grid met
during a search from a validly constructed start does), the sum test is
equivalent to the claimed conjunction "every cell non-zero and sum =
405". -/
theorem c1_isComplete_iff (g : Grid) (hb : Bounded g)
    (hv : checkSudoku g = true) :
    isComplete g = true ↔
      ((∀ p q : Fin 9, g p q ≠ 0) ∧ sumGrid g = 405) := by
  constructor
  · intro h
    exact ⟨no_zero_of_complete g hb hv h, (isComplete_eq_true_iff g).mp h⟩
  · rintro ⟨_, hsum⟩
    exact (isComplete_eq_true_iff g).mpr hsum

theorem c1_witness : isComplete solGrid = true :=
  (c1_isComplete_iff solGrid (by decide) (by decide)).mpr ⟨by decide, by decide⟩

theorem labelLt_asymm (x y : Fin 9 × Fin 9) (h1 : labelLt x y)
    (h2 : labelLt y x) : False := by
  obtain ⟨⟨x1, _⟩, ⟨x2, _⟩⟩ := x
  obtain ⟨⟨y1, _⟩, ⟨y2, _⟩⟩ := y
  simp only [labelLt, Fin.lt_def, Fin.mk.injEq] at h1 h2
  omega

/-- C2 (amended): `__next_empty` scans pandas labels `(row, col)` in
row-major LABEL order, but the label pair `(r, c)` it returns designates
the stored cell `(c, r)` (pandas `df[r][c]` semantics), exactly the cell
the caller's subsequent `self._sudoku[r][c] = i` writes.  Hence the
designated cell is the first empty cell of the stored input matrix in
COLUMN-major order: top-to-bottom within a column, left-to-right across
columns. -/
theorem c2_nextEmpty_colMajor_first (g : Grid) (h : ∃ p q : Fin 9, g p q = 0) :
    ∃ r c : Fin 9, nextEmpty g = some (r, c) ∧ g c r = 0 ∧
      ∀ p q : Fin 9,
        ((q : ℕ) < (r : ℕ) ∨ ((q : ℕ) = (r : ℕ) ∧ (p : ℕ) < (c : ℕ))) →
        g p q ≠ 0 := by
  obtain ⟨p0, q0, h0⟩ := h
  obtain ⟨r, c, hsome⟩ := nextEmpty_isSome_of_zero g p0 q0 h0
  refine ⟨r, c, hsome, nextEmpty_some_get_zero g r c hsome, ?_⟩
  intro p q hlt hcon
  obtain ⟨hpred, l1, l2, heq, hall⟩ := findCell_eq_some _ _ _ hsome
  have hmem : ((q, p) : Fin 9 × Fin 9) ∈ cells := mem_cells _
  rw [heq] at hmem
  have hlt' : labelLt (q, p) (r, c) := by
    rcases hlt with h1 | ⟨h1, h2⟩
    · exact Or.inl (Fin.lt_def.mpr h1)
    · exact Or.inr ⟨Fin.ext h1, Fin.lt_def.mpr h2⟩
  rcases List.mem_append.mp hmem with hmem1 | hmem2
  · have hfalse := hall _ hmem1
    rw [beq_eq_false_iff_ne] at hfalse
    exact hfalse hcon
  · rcases List.mem_cons.mp hmem2 with heq2 | hmem2
    · rw [heq2] at hlt'
      exact labelLt_asymm _ _ hlt' hlt'
    · have hsorted := cells_pairwise_labelLt
      rw [heq] at hsorted
      have hsub : ((r, c) :: l2).Sublist (l1 ++ (r, c) :: l2) :=
        List.sublist_append_right l1 _
      have hp2 : ((r, c) :: l2).Pairwise labelLt := hsorted.sublist hsub
      have hgt := (List.pairwise_cons.mp hp2).1 _ hmem2
      exact labelLt_asymm _ _ hlt' hgt

/-- C2 (counterexample): on a grid whose only empty cells sit at stored
positions (0, 1) and (1, 0), the lookup returns the label pair (0, 1),
which under pandas chained indexing designates stored cell (1, 0) — NOT
the cell (0, 1) that is first in row-major order over the input matrix. -/
theorem c2_counterexample :
    nextEmpty twoGapGrid = some (0, 1) ∧
    rowMajorFirstZero twoGapGrid = some (0, 1) ∧
    Option.map (fun rc : Fin 9 × Fin 9 => (rc.2, rc.1))
        (nextEmpty twoGapGrid) = some (1, 0) ∧
    Option.map (fun rc : Fin 9 × Fin 9 => (rc.2, rc.1))
        (nextEmpty twoGapGrid) ≠ rowMajorFirstZero twoGapGrid := by
  decide

theorem c2_witness : dfGet twoGapGrid 0 1 = 0 := by
  obtain ⟨r, c, hsome, h0, hfirst⟩ :=
    c2_nextEmpty_colMajor_first twoGapGrid ⟨0, 1, by decide⟩
  have hne : nextEmpty twoGapGrid = some (0, 1) := by decide
  have hrc : (r, c) = ((0 : Fin 9), (1 : Fin 9)) :=
    Option.some.inj (hsome.symm.trans hne)
  injection hrc with hr hc
  subst hr
  subst hc
  exact h0

/-- C10: in a valid (check-passing) grid with entries 0..9, any empty
cell forces the total sum strictly below 405; consequently whenever
`__is_complete` answers false an empty cell exists, so `__next_empty`
returns a real cell and the `(-1, -1)` sentinel is never used for the
subsequent assignment. -/
theorem c10_valid_incomplete_has_gap (g : Grid) (hb : Bounded g)
    (hv : checkSudoku g = true) :
    ((∃ p q : Fin 9, g p q = 0) → sumGrid g < 405) ∧
    (isComplete g = false → ∃ r c, nextEmpty g = some (r, c)) := by
  constructor
  · rintro ⟨p, q, h0⟩
    exact sumGrid_lt_405_of_zero g hb hv p q h0
  · intro hcomp
    exact nextEmpty_isSome_of_incomplete g hb hv hcomp

theorem c10_witness :
    sumGrid oneGap < 405 ∧ ∃ r c, nextEmpty oneGap = some (r, c) := by
  have h := c10_valid_incomplete_has_gap oneGap (by decide) (by decide)
  exact ⟨h.1 ⟨0, 0, by decide⟩, h.2 (by decide)⟩

/-- C3: against a validly constructed starting grid, when a search
strategy (exhaustive `__fill_sudoku_v1`, or pruned `__fill_sudoku_v2`
driven by `__get_options` of any starting grid) returns `False`, the
working grid after the call is cell-for-cell identical to the grid before
the call: every assignment made on the failing path was undone. -/
theorem c3_failure_restores (g gt : Grid) (hv : checkSudoku g = true) :
    ∀ (fuel : ℕ) (gf1 gf2 : Grid),
      (fillV1 fuel g = .ok false gf1 → gf1 = g) ∧
      (fillV2 (getOptions gt) fuel g = .ok false gf2 → gf2 = g) := by
  intro fuel gf1 gf2
  exact ⟨fillV1_ok_false fuel g gf1, fillV2_ok_false (getOptions gt) fuel g gf2⟩

theorem c3_witness :
    checkSudoku stuckGrid = true ∧
    fillV1 82 stuckGrid = .ok false stuckGrid ∧
    fillV2 (getOptions stuckGrid) 82 stuckGrid = .ok false stuckGrid ∧
    stuckGrid = stuckGrid := by
  refine ⟨by decide, by decide, by decide, ?_⟩
  exact (c3_failure_restores stuckGrid stuckGrid (by decide) 82
    stuckGrid stuckGrid).1 (by decide)

/-- C5: against a validly constructed starting grid, when either search
strategy returns `True`, the resulting working grid passes both
`__check_sudoku` (no duplicate non-zero value in any row, column, or 3x3
box) and `__is_complete`. -/
theorem c5_success_valid_complete (g gt : Grid) (hv : checkSudoku g = true) :
    ∀ (fuel : ℕ) (gf1 gf2 : Grid),
      (fillV1 fuel g = .ok true gf1 →
        checkSudoku gf1 = true ∧ isComplete gf1 = true) ∧
      (fillV2 (getOptions gt) fuel g = .ok true gf2 →
        checkSudoku gf2 = true ∧ isComplete gf2 = true) := by
  intro fuel gf1 gf2
  exact ⟨fillV1_ok_true fuel g gf1 hv, fillV2_ok_true (getOptions gt) fuel g gf2 hv⟩

theorem c5_witness : checkSudoku solGrid = true ∧ isComplete solGrid = true :=
  (c5_success_valid_complete oneGap oneGap (by decide) 82 solGrid solGrid).1
    (by decide)

/-- C9: both search strategies terminate on every starting grid: with
fuel 82 (one unit more than the 81 cells) the fuel-indexed embeddings
never exhaust their fuel, because each recursive call is made on a grid
with strictly fewer empty cells than its caller's grid (third
conjunct). -/
theorem c9_termination (g gt : Grid) :
    fillV1 82 g ≠ .fuelOut ∧
    fillV2 (getOptions gt) 82 g ≠ .fuelOut ∧
    ∀ (r c : Fin 9) (v : ℕ), dfGet g r c = 0 → v ≠ 0 →
      countZeros (dfSet g r c v) < countZeros g := by
  refine ⟨?_, ?_, ?_⟩
  · exact fillV1_ne_fuelOut 82 g (by have := countZeros_le g; omega)
  · exact fillV2_ne_fuelOut (getOptions gt)
      (fun r c v hv => getOptions_nonzero gt r c v hv) 82 g
      (by have := countZeros_le g; omega)
  · intro r c v h0 hv
    exact countZeros_dfSet_lt g r c v h0 hv

theorem c9_witness : countZeros (dfSet oneGap 0 0 5) < countZeros oneGap :=
  (c9_termination oneGap oneGap).2.2 0 0 5 (by decide) (by decide)

/-- C6: a validly constructed starting grid with entries 0..9 that has
exactly one complete solution is solved by BOTH strategies, and both
leave the working grid equal to that same solution (the pruned strategy
being run, as `solve_sudoku` does, on the candidate table computed from
the same starting grid). -/
theorem c6_unique_solution_strategy_independence (g s : Grid)
    (hv : checkSudoku g = true) (hb : Bounded g)
    (hsol : IsSolution s g) (huniq : ∀ t, IsSolution t g → t = s) :
    fillV1 82 g = .ok true s ∧ fillV2 (getOptions g) 82 g = .ok true s := by
  have hcz : countZeros g < 82 := by have := countZeros_le g; omega
  exact ⟨fillV1_finds 82 g hv hb hcz s hsol huniq,
    fillV2_finds g hb 82 g hv hb hcz (fun p q _ => rfl) s hsol huniq⟩

theorem c6_witness :
    fillV1 82 oneGap = .ok true solGrid ∧
    fillV2 (getOptions oneGap) 82 oneGap = .ok true solGrid := by
  have hfixed : ∀ p q : Fin 9, ¬(p = 0 ∧ q = 0) →
      oneGap p q = solGrid p q ∧ solGrid p q ≠ 0 := by
    intro p q hpq
    refine ⟨by simp [oneGap, hpq], ?_⟩
    simp only [solGrid]
    omega
  have huniq : ∀ t, IsSolution t oneGap → t = solGrid := by
    rintro t ⟨hvt, hct, hbt, hpt⟩
    have ht_eq : ∀ p q : Fin 9, ¬(p = 0 ∧ q = 0) → t p q = solGrid p q := by
      intro p q hpq
      have h := hfixed p q hpq
      rw [hpt p q (by rw [h.1]; exact h.2), h.1]
    have hw9 : t 0 0 ≤ 9 := hbt 0 0
    have hw0 : t 0 0 ≠ 0 := no_zero_of_complete t hbt hvt hct 0 0
    have hw1 : t 0 0 = 1 := by
      by_contra hne1
      have hw2 : 2 ≤ t 0 0 := by omega
      have hj0 : (⟨t 0 0 - 1, by omega⟩ : Fin 9) ≠ 0 := by
        intro hcon
        have := congrArg Fin.val hcon
        simp only [Fin.val_zero] at this
        omega
      have htj : t 0 ⟨t 0 0 - 1, by omega⟩ = t 0 0 := by
        rw [ht_eq 0 ⟨t 0 0 - 1, by omega⟩ (by rintro ⟨_, hc⟩; exact hj0 hc)]
        simp only [solGrid, Fin.val_zero]
        omega
      have hdup : isCorrect (rowList t 0) = false := by
        apply (isCorrect_rowList_eq_false_iff t 0).mpr
        exact ⟨0, ⟨t 0 0 - 1, by omega⟩, fun hcon => hj0 hcon.symm,
          by rw [htj], hw0⟩
      rw [rowList_isCorrect t hvt 0] at hdup
      cases hdup
    funext p q
    by_cases hpq : p = 0 ∧ q = 0
    · obtain ⟨rfl, rfl⟩ := hpq
      rw [hw1]
      rfl
    · exact ht_eq p q hpq
  exact c6_unique_solution_strategy_independence oneGap solGrid (by decide)
    (by decide) (by decide) huniq

/-- C7: `__get_options` gives a filled cell the singleton holding its own
value; an empty cell (pandas label `(r, c)`, stored cell `(c, r)`) gets
exactly the digits 1..9 absent from its row, its column, and its 3x3 box
(via the `_squares` Box Index Map), in ascending order.  The first family
of constraints below (`dfGet g r j`) ranges over the values the source
erases from `self._sudoku[r]`, the second (`dfGet g i c`) over
`self._sudoku.T[c]`, together exactly the cell's own stored column and
row. -/
theorem c7_getOptions_spec (g : Grid) (hb : Bounded g) (r c : Fin 9) :
    (dfGet g r c ≠ 0 → getOptions g r c = [dfGet g r c]) ∧
    (dfGet g r c = 0 →
      (getOptions g r c).Sorted (· < ·) ∧
      ∀ v : ℕ, v ∈ getOptions g r c ↔
        1 ≤ v ∧ v ≤ 9 ∧ (∀ j : Fin 9, dfGet g r j ≠ v) ∧
          (∀ i : Fin 9, dfGet g i c ≠ v) ∧
          (∀ p q : Fin 9, sqId p q = sqId c r → g p q ≠ v)) := by
  constructor
  · exact getOptions_filled g r c
  · intro h0
    refine ⟨getOptions_sorted g r c, ?_⟩
    intro v
    rw [mem_getOptions_empty_iff g r c v h0, mem_vals19]
    constructor
    · rintro ⟨⟨h1, h9⟩, hrow, hcol, hsq⟩
      have hv0 : v ≠ 0 := by omega
      refine ⟨h1, h9, ?_, ?_, ?_⟩
      · intro j hcon
        exact hcol ((mem_colList_iff g r v).mpr ⟨j, hcon⟩)
      · intro i hcon
        exact hrow ((mem_rowList_iff g c v).mpr ⟨i, hcon⟩)
      · intro p q hpq hcon
        exact hsq ((mem_squareList_iff g _ v hv0).mpr ⟨p, q, hpq, hcon⟩)
    · rintro ⟨h1, h9, hlabrow, hlabcol, hbox⟩
      have hv0 : v ≠ 0 := by omega
      refine ⟨⟨h1, h9⟩, ?_, ?_, ?_⟩
      · intro hcon
        obtain ⟨j, hj⟩ := (mem_rowList_iff g c v).mp hcon
        exact hlabcol j hj
      · intro hcon
        obtain ⟨j, hj⟩ := (mem_colList_iff g r v).mp hcon
        exact hlabrow j hj
      · intro hcon
        obtain ⟨p, q, hpq, hval⟩ := (mem_squareList_iff g _ v hv0).mp hcon
        exact hbox p q hpq hval

theorem c7_witness : (1 : ℕ) ∈ getOptions oneGap 0 0 :=
  (((c7_getOptions_spec oneGap (by decide) 0 0).2 (by decide)).2 1).mpr
    (by decide)

/-- C8: for a 9x9 integer matrix with entries 0..9, construction fails
(with the `ValueError` the spec calls `InvalidPuzzle`) iff the matrix has
a duplicate non-zero value in some row, column, or 3x3 box; on success
the stored working grid and the `_original` snapshot both equal the
input. -/
theorem c8_initSolver_spec (m : Grid) (hb : Bounded m) :
    ((∃ e, initSolver m = .error e) ↔ hasDuplicate m) ∧
    (∀ s, initSolver m = .ok s → s.original = m ∧ s.sudoku = m) := by
  constructor
  · constructor
    · rintro ⟨e, he⟩
      rw [initSolver] at he
      by_cases hv : checkSudoku m = true
      · rw [if_pos hv] at he
        cases he
      · exact (checkSudoku_eq_false_iff m).mp (by simpa using hv)
    · intro hdup
      have hfalse : checkSudoku m = false :=
        (checkSudoku_eq_false_iff m).mpr hdup
      refine ⟨"Initial sudoku is invalid", ?_⟩
      rw [initSolver, if_neg (by simp [hfalse])]
  · intro s hs
    rw [initSolver] at hs
    by_cases hv : checkSudoku m = true
    · rw [if_pos hv] at hs
      injection hs with hs2
      rw [← hs2]
      exact ⟨rfl, rfl⟩
    · rw [if_neg hv] at hs
      cases hs

theorem c8_witness :
    hasDuplicate dupGrid ∧ (Solver.mk oneGap oneGap).original = oneGap := by
  constructor
  · exact (c8_initSolver_spec dupGrid (by decide)).1.mp
      ⟨"Initial sudoku is invalid", by rfl⟩
  · exact ((c8_initSolver_spec oneGap (by decide)).2 ⟨oneGap, oneGap⟩
      (by rfl)).1

/-- C4 (counterexample): on a solvable, validly constructed grid the
facade itself performs interactive I/O — its own event trace contains the
`input(...)` prompt — and its result carries no boolean/timing value for
the caller (the Python function body has no `return` statement, so the
caller receives `None`).  This refutes "returns a structured
success/failure outcome (with elapsed time) to its caller and performs no
interactive I/O itself". -/
theorem c4_counterexample :
    solveSudoku "brute" false ⟨oneGap, oneGap⟩ =
      .ok ([.printSolving, .promptShowResult], ⟨solGrid, oneGap⟩) ∧
    FacadeEvent.promptShowResult ∈
      [FacadeEvent.printSolving, FacadeEvent.promptShowResult] := by
  constructor
  · decide
  · decide

/-- C4 (amended): the facade raises `ValueError` for an unrecognized
method; for a recognized method it reports the outcome itself — search
exhaustion becomes a normal `.ok` return whose trace prints the failure
message (no exception, no prompt), while success triggers the interactive
prompt and optional rendering — and in every case the caller receives no
success/failure/timing value. -/
theorem c4_facade_behavior (m : String) (ans : Bool) (s : Solver) :
    (m ≠ "brute" ∧ m ≠ "options" →
      solveSudoku m ans s = .error "Method must be either brute or options") ∧
    (∀ gf, fillV1 82 s.sudoku = .ok false gf →
      solveSudoku "brute" ans s =
        .ok ([.printSolving, .printUnsolved], ⟨gf, s.original⟩)) ∧
    (∀ gf, fillV1 82 s.sudoku = .ok true gf →
      solveSudoku "brute" ans s =
        .ok ([.printSolving, .promptShowResult] ++
          (if ans then [.drawGrid] else []), ⟨gf, s.original⟩)) ∧
    (∀ gf, fillV2 (getOptions s.sudoku) 82 s.sudoku = .ok false gf →
      solveSudoku "options" ans s =
        .ok ([.printSolving, .printUnsolved], ⟨gf, s.original⟩)) ∧
    (∀ gf, fillV2 (getOptions s.sudoku) 82 s.sudoku = .ok true gf →
      solveSudoku "options" ans s =
        .ok ([.printSolving, .promptShowResult] ++
          (if ans then [.drawGrid] else []), ⟨gf, s.original⟩)) := by
  refine ⟨?_, ?_, ?_, ?_, ?_⟩
  · intro hm
    rw [solveSudoku, if_pos hm]
  · intro gf hf
    rw [solveSudoku, if_neg (by simp), if_pos rfl, hf]
  · intro gf hf
    rw [solveSudoku, if_neg (by simp), if_pos rfl, hf]
  · intro gf hf
    rw [solveSudoku, if_neg (by simp), if_neg (by simp), hf]
  · intro gf hf
    rw [solveSudoku, if_neg (by simp), if_neg (by simp), hf]

theorem c4_witness :
    solveSudoku "foo" false ⟨oneGap, oneGap⟩ =
      .error "Method must be either brute or options" ∧
    solveSudoku "brute" false ⟨stuckGrid, stuckGrid⟩ =
      .ok ([.printSolving, .printUnsolved], ⟨stuckGrid, stuckGrid⟩) := by
  constructor
  · exact (c4_facade_behavior "foo" false ⟨oneGap, oneGap⟩).1
      ⟨by decide, by decide⟩
  · exact (c4_facade_behavior "brute" false ⟨stuckGrid, stuckGrid⟩).2.1
      stuckGrid (by decide)

end Claims

end SudokuGoku
